import Mathlib

/-!
pulse, the FFmpeg demonstration harness.

A shallow embedding of `tools/ffmpeg_execute.c` (the command-line splitter in front of
`ffmpeg_main`) and of `tools/helloworld_av.c` (the synthetic encode/mux pipeline
`helloworld_av_write`), with the properties of the specification stated over it.
-/

namespace Pulse

/-! ## `ffmpeg_execute` (tools/ffmpeg_execute.c) -/

/-- The space character, the only delimiter handed to `strtok`. -/
def SP : Char := Char.ofNat 32

/-- The terminating NUL of a C string. -/
def NUL : Char := Char.ofNat 0

/-- The value of `*p` when the characters from `p` up to the end of the buffer are `s`:
past the last character sits the terminating NUL. -/
def deref (s : List Char) : Char := s.headD NUL

/-- One entry of the `argv` array: `malloc` returns it uninitialised, the code stores either a
`strdup`ed string or `NULL`. -/
inductive Slot where
  | uninit : Slot
  | null : Slot
  | str : List Char → Slot
  deriving DecidableEq, Repr

/-- The counting loop of lines 22-29: `argc` is bumped at each space that is followed by a
character that is neither a space nor the terminator. The scan ends at the first NUL.
`argc` is an unbounded natural number here; the C `int` can only overflow on a command
of more than two gigabytes. -/
def countArgs : List Char → Nat → Nat
  | [], argc => argc
  | c :: rest, argc =>
    if c = NUL then argc
    else if c = SP ∧ deref rest ≠ SP ∧ deref rest ≠ NUL then countArgs rest (argc + 1)
    else countArgs rest argc

/-- The copy made by `strdup`: the characters up to the first NUL. -/
def strdup : List Char → List Char
  | [] => []
  | c :: rest => if c = NUL then [] else c :: strdup rest

/-- The first phase of `strtok`: skip the leading delimiters. -/
def skipDelims : List Char → List Char
  | [] => []
  | c :: rest => if c = SP then skipDelims rest else c :: rest

/-- The second phase of `strtok`: the token runs up to the next delimiter (overwritten with
NUL, the saved pointer is the character after it) or up to the end of the string (the
saved pointer then sits on the terminator). Returns the token and the saved remainder. -/
def scanToken : List Char → List Char × List Char
  | [] => ([], [])
  | c :: rest =>
    if c = NUL then ([], [])
    else if c = SP then ([], rest)
    else ((c :: (scanToken rest).1), (scanToken rest).2)

/-- One call of `strtok(_, " ")` on the remaining buffer `s`: `none` is the `NULL` result,
otherwise the token and the remainder saved for the next call. -/
def strtok (s : List Char) : Option (List Char × List Char) :=
  match skipDelims s with
  | [] => none
  | c :: rest => if c = NUL then none else some (scanToken (c :: rest))

/-- The loop of lines 46-50, `while (token && arg_index < argc)`. The first argument is
`argc - arg_index`, the number of iterations the bound still allows. Returns the array, the
final `arg_index` and the final `token` (`none` when `strtok` has run dry). -/
def tokenLoop : Nat → Option (List Char × List Char) → Nat → List Slot →
    List Slot × Nat × Option (List Char)
  | 0, token, arg_index, argv => (argv, arg_index, token.map Prod.fst)
  | _ + 1, none, arg_index, argv => (argv, arg_index, none)
  | room + 1, some (tok, saved), arg_index, argv =>
    tokenLoop room (strtok saved) (arg_index + 1) (argv.set arg_index (Slot.str (strdup tok)))

/-- The fixed program name stored in `argv[0]`. -/
def progName : List Char := "ffmpeg".toList

/-- What a call of `ffmpeg_execute` did: the status it returned and, when `ffmpeg_main` was
called, the `argc` and the `argc + 1` entries of `argv` it was called with. -/
structure ExecResult where
  status : Int
  call : Option (Nat × List Slot)
  deriving DecidableEq, Repr

/-- The function `ffmpeg_execute`. `ffmpeg_main` is the external entry point of the CLI library,
`mallocOk` tells whether the `malloc` of the `argv` array succeeds, and `command_line` is
`none` for a `NULL` pointer. The unchecked `strdup` calls are taken to succeed. -/
def ffmpeg_execute (ffmpeg_main : Nat → List Slot → Int) (mallocOk : Bool)
    (command_line : Option (List Char)) : ExecResult :=
  match command_line with
  | none => { status := -1, call := none }
  | some s =>
    let argc := countArgs s 2
    if mallocOk = false then { status := -1, call := none }
    else
      let argv0 := (List.replicate (argc + 1) Slot.uninit).set 0 (Slot.str progName)
      let argv1 := (tokenLoop (argc - 1) (strtok (strdup s)) 1 argv0).1
      let argv := argv1.set argc Slot.null
      { status := ffmpeg_main argc argv, call := some (argc, argv) }

/-- The tokens of a command joined by single spaces. -/
def joinSp : List (List Char) → List Char
  | [] => []
  | [t] => t
  | t :: u :: ts => t ++ SP :: joinSp (u :: ts)

/-- A well-formed token: not empty, no space, no NUL. -/
def GoodToken (t : List Char) : Prop := t ≠ [] ∧ SP ∉ t ∧ NUL ∉ t

/-! ## `helloworld_av_write` (tools/helloworld_av.c)

The codec/container library is the environment of the function. A `Lib` fixes what every
library call whose result the code inspects answers during one run. The allocations whose
result the code dereferences without a check (`avcodec_alloc_context3`, `av_frame_alloc`,
`av_frame_get_buffer`) succeed in the runs a `Lib` describes; their failure is added further
down by `Unchecked` and `helloworld_av_write_unchecked`. The sine samples written
into the audio frame are floating point and are not part of the model; the audio frame is
represented by its timestamp.

The answers to `avcodec_receive_packet` are given per drain loop as a finite list that is
continued by the signal that ends the loop. Every run in which the function returns makes
finitely many receive calls and is represented exactly by such lists; a library that hands
out packets for ever would keep the C function in its drain loop for ever, and such a run,
which returns nothing, has no counterpart here. With the answers fixed in this way the
embedding is a total function. -/

/-- The two encoder sessions. -/
inductive Enc where
  | video : Enc
  | audio : Enc
  deriving DecidableEq, Repr

/-- The resources named by the cleanup block: the container context `oc`, the open file
`oc->pb`, the two codec contexts and the two frame buffers. -/
inductive Res where
  | oc : Res
  | pb : Res
  | video_codec_ctx : Res
  | audio_codec_ctx : Res
  | video_frame : Res
  | audio_frame : Res
  deriving DecidableEq, Repr

/-- The library calls of one run that the properties speak about, in call order. A
`send_frame` with `pts = none` is the `NULL` frame that starts a flush. -/
inductive Event where
  | acquire : Res → Event
  | release : Res → Event
  | write_header : Int → Event
  | send_frame : Enc → Option Int → Int → Event
  | receive_packet : Enc → Int → Event
  | write_frame : Enc → Event
  | write_trailer : Event
  deriving DecidableEq, Repr

/-- The reusable video frame: its timestamp, the line sizes chosen by the library and the
bytes of the three planes, addressed by byte offset. -/
structure VideoFrame where
  pts : Int
  linesize0 : Nat
  linesize1 : Nat
  linesize2 : Nat
  data0 : Nat → Nat
  data1 : Nat → Nat
  data2 : Nat → Nat

/-- The answers of the library during one run. -/
structure Lib where
  /-- whether the file is compiled with `__APPLE__` defined -/
  apple : Bool
  /-- result of `avformat_alloc_output_context2`; `oc` is set exactly when it is not negative -/
  alloc_output_context2 : Int
  /-- whether `avcodec_find_encoder_by_name("h264_videotoolbox")` finds a codec -/
  enc_h264_videotoolbox : Bool
  /-- whether `avcodec_find_encoder_by_name("libx264")` finds a codec -/
  enc_libx264 : Bool
  /-- whether `avcodec_find_encoder(AV_CODEC_ID_H264)` finds a codec -/
  enc_h264 : Bool
  /-- whether `avcodec_find_encoder(AV_CODEC_ID_MPEG4)` finds a codec -/
  enc_mpeg4 : Bool
  /-- whether `avcodec_find_encoder(AV_CODEC_ID_AAC)` finds a codec -/
  enc_aac : Bool
  /-- whether `avformat_new_stream` returns a video stream -/
  new_stream_video : Bool
  /-- whether `avformat_new_stream` returns an audio stream -/
  new_stream_audio : Bool
  /-- result of `avcodec_open2` on the video context -/
  open2_video : Int
  /-- result of `avcodec_open2` on the audio context -/
  open2_audio : Int
  /-- whether the output format carries `AVFMT_NOFILE` -/
  nofile : Bool
  /-- result of `avio_open`; `oc->pb` is set exactly when it is not negative -/
  avio_open : Int
  /-- result of `avformat_write_header` -/
  write_header : Int
  /-- the video frame as `av_frame_get_buffer` hands it out -/
  frame0 : VideoFrame
  /-- result of `avcodec_send_frame` for the video frame with the given index -/
  send_video : Nat → Int
  /-- results of the successive `avcodec_receive_packet` calls that follow the video frame
  with the given index; a call beyond the end of the list answers `AVERROR(EAGAIN)` -/
  recv_video : Nat → List Int
  /-- result of `avcodec_send_frame` for the audio frame with the given index -/
  send_audio : Nat → Int
  /-- results of the successive `avcodec_receive_packet` calls that follow the audio frame
  with the given index; a call beyond the end of the list answers `AVERROR(EAGAIN)` -/
  recv_audio : Nat → List Int
  /-- result of `avcodec_send_frame(video_codec_ctx, NULL)` -/
  send_flush_video : Int
  /-- results of the `avcodec_receive_packet` calls of the video flush; a call beyond the end
  of the list answers `AVERROR_EOF` -/
  recv_flush_video : List Int
  /-- result of `avcodec_send_frame(audio_codec_ctx, NULL)` -/
  send_flush_audio : Int
  /-- results of the `avcodec_receive_packet` calls of the audio flush; a call beyond the end
  of the list answers `AVERROR_EOF` -/
  recv_flush_audio : List Int

/-- The library constant `AVERROR(EAGAIN)`: minus the platform's `EAGAIN`. -/
def AVERROR_EAGAIN (apple : Bool) : Int := if apple then -35 else -11

/-- The library constant `AVERROR_EOF`, `-MKTAG('E','O','F',' ')`. -/
def AVERROR_EOF : Int := -541478725

/-- The library constant `AV_NOPTS_VALUE`. -/
def AV_NOPTS_VALUE : Int := -9223372036854775808

/-- Line 29. -/
def duration_seconds : Nat := 2

/-- Line 30. -/
def fps : Nat := 30

/-- Line 31. -/
def total_frames : Nat := duration_seconds * fps

/-- Line 32. -/
def sample_rate : Nat := 48000

/-- Line 33. -/
def audio_samples_per_frame : Nat := 1024

/-- Line 207. -/
def total_audio_frames : Nat := (duration_seconds * sample_rate) / audio_samples_per_frame

/-- Line 82, `video_codec_ctx->width`. -/
def width : Nat := 320

/-- Line 83, `video_codec_ctx->height`. -/
def height : Nat := 240

/-- The local variables of `helloworld_av_write` that steer it (a pointer is represented by
whether it is non-`NULL`), the video frame buffer, the calls made so far and the video
frames handed to the encoder so far. -/
structure St where
  ret : Int
  oc : Bool
  pb : Bool
  video_codec_ctx : Bool
  audio_codec_ctx : Bool
  video_frame : Bool
  audio_frame : Bool
  video_frame_count : Nat
  audio_frame_count : Nat
  frame : VideoFrame
  trace : List Event
  sent : List VideoFrame

/-- Record one library call. -/
def St.emit (s : St) (e : Event) : St := { s with trace := s.trace ++ [e] }

/-- Where control is after a piece of the function body: at the next statement, at the label
`cleanup`, or out of the function through the `return -1` of line 42. -/
inductive Flow where
  | next : St → Flow
  | cleanup : St → Flow
  | returned : Int → St → Flow

/-- Sequencing: the statements `k` that follow run only when control falls through to them. -/
def Flow.andThen (f : Flow) (k : St → Flow) : Flow :=
  match f with
  | Flow.next s => k s
  | other => other

/-- A store of one byte into a plane. -/
def store (mem : Nat → Nat) (off v : Nat) : Nat → Nat :=
  fun k => if k = off then v else mem k

/-- Lines 171-176: the luma plane for frame counter `n`. -/
def fillLuma (linesize n : Nat) (mem : Nat → Nat) : Nat → Nat :=
  (List.range height).foldl
    (fun m y => (List.range width).foldl
      (fun m x => store m (y * linesize + x) ((x + y + n) &&& 0xFF)) m) mem

/-- Lines 179-184, for one of the two chroma planes. -/
def fillChroma (linesize : Nat) (mem : Nat → Nat) : Nat → Nat :=
  (List.range (height / 2)).foldl
    (fun m y => (List.range (width / 2)).foldl
      (fun m x => store m (y * linesize + x) 128) m) mem

/-- Lines 168-186: the frame content and timestamp for frame counter `n`. -/
def genVideoFrame (f : VideoFrame) (n : Nat) : VideoFrame :=
  { f with
    data0 := fillLuma f.linesize0 n f.data0
    data1 := fillChroma f.linesize1 f.data1
    data2 := fillChroma f.linesize2 f.data2
    pts := (n : Int) }

/-- Lines 46-59: whether the fallback chain ends with a video codec. -/
def find_video_codec (L : Lib) : Bool :=
  if L.apple then
    (if L.enc_h264_videotoolbox then true else if L.enc_libx264 then true else L.enc_h264)
  else
    (if L.enc_libx264 then true else L.enc_mpeg4)

/-- The locals at function entry (lines 17-33). -/
def St.init (L : Lib) : St :=
  { ret := 0, oc := false, pb := false, video_codec_ctx := false, audio_codec_ctx := false,
    video_frame := false, audio_frame := false, video_frame_count := 0,
    audio_frame_count := 0, frame := L.frame0, trace := [], sent := [] }

/-- Lines 39-43: allocate the output context; on failure the function returns `-1` at once. -/
def allocContext (L : Lib) : Flow :=
  let s := { St.init L with ret := L.alloc_output_context2 }
  if s.ret < 0 then Flow.returned (-1) s
  else Flow.next ({ s with oc := true }.emit (Event.acquire Res.oc))

/-- Lines 45-71: look up the video encoder and the audio encoder. -/
def findEncoders (L : Lib) (s : St) : Flow :=
  if find_video_codec L = false then Flow.cleanup s
  else if L.enc_aac = false then Flow.cleanup s
  else Flow.next s

/-- Lines 73-102: create the video stream, allocate and open the video codec context. -/
def openVideo (L : Lib) (s : St) : Flow :=
  if L.new_stream_video = false then Flow.cleanup s
  else
    let s := { s with video_codec_ctx := true }.emit (Event.acquire Res.video_codec_ctx)
    let s := { s with ret := L.open2_video }
    if s.ret < 0 then Flow.cleanup s else Flow.next s

/-- Lines 104-133: create the audio stream, allocate and open the audio codec context. -/
def openAudio (L : Lib) (s : St) : Flow :=
  if L.new_stream_audio = false then Flow.cleanup s
  else
    let s := { s with audio_codec_ctx := true }.emit (Event.acquire Res.audio_codec_ctx)
    let s := { s with ret := L.open2_audio }
    if s.ret < 0 then Flow.cleanup s else Flow.next s

/-- Lines 135-142: open the output file unless the format has `AVFMT_NOFILE`. -/
def openFile (L : Lib) (s : St) : Flow :=
  if L.nofile = false then
    let s := { s with ret := L.avio_open }
    if s.ret < 0 then Flow.cleanup s
    else Flow.next ({ s with pb := true }.emit (Event.acquire Res.pb))
  else Flow.next s

/-- Lines 144-149: write the container header. -/
def writeHeader (L : Lib) (s : St) : Flow :=
  let s := { s with ret := L.write_header }.emit (Event.write_header L.write_header)
  if s.ret < 0 then Flow.cleanup s else Flow.next s

/-- Lines 151-163: allocate the two frames. -/
def allocFrames (s : St) : Flow :=
  let s := { s with video_frame := true }.emit (Event.acquire Res.video_frame)
  let s := { s with audio_frame := true }.emit (Event.acquire Res.audio_frame)
  Flow.next s

/-- Lines 39-163: from the allocation of the container to the allocation of the two frames,
each step run only when the one before fell through. -/
def setup (L : Lib) : Flow :=
  ((((((allocContext L).andThen (findEncoders L)).andThen (openVideo L)).andThen
    (openAudio L)).andThen (openFile L)).andThen (writeHeader L)).andThen allocFrames

/-- The inner loop of lines 192-201 and 223-232, `while (ret >= 0)`, entered after a send
that did not fail: receive a packet; stop draining on `EAGAIN` or `EOF`, jump to `cleanup`
on any other negative result, otherwise write the packet and go round again. The list
holds the answers the library still has for this loop. -/
def drain (L : Lib) (e : Enc) : List Int → St → Flow
  | [], s =>
    Flow.next ({ s with ret := AVERROR_EAGAIN L.apple }.emit
      (Event.receive_packet e (AVERROR_EAGAIN L.apple)))
  | r :: rs, s =>
    let s := { s with ret := r }.emit (Event.receive_packet e r)
    if r = AVERROR_EAGAIN L.apple ∨ r = AVERROR_EOF then Flow.next s
    else if r < 0 then Flow.cleanup s
    else drain L e rs (s.emit (Event.write_frame e))

/-- Lines 167-189: generate the frame for the current `video_frame_count`, stamp it and
submit it to the video encoder. -/
def videoSend (L : Lib) (s : St) : St :=
  let f := genVideoFrame s.frame s.video_frame_count
  let r := L.send_video s.video_frame_count
  { s with frame := f, ret := r, sent := s.sent ++ [f] }.emit
    (Event.send_frame Enc.video (some f.pts) r)

/-- The video loop of lines 166-204, `while (video_frame_count < total_frames)`. The first
argument is `total_frames - video_frame_count`, the number of iterations still to run. A
failed send leaves the loop by `break`. -/
def videoLoop (L : Lib) : Nat → St → Flow
  | 0, s => Flow.next s
  | todo + 1, s =>
    if (videoSend L s).ret < 0 then Flow.next (videoSend L s)
    else
      (drain L Enc.video (L.recv_video s.video_frame_count) (videoSend L s)).andThen fun s =>
        videoLoop L todo { s with video_frame_count := s.video_frame_count + 1 }

/-- Lines 210-220: stamp the audio frame for the current `audio_frame_count` and submit it to
the audio encoder. -/
def audioSend (L : Lib) (s : St) : St :=
  let pts : Int := ((s.audio_frame_count * audio_samples_per_frame : Nat) : Int)
  let r := L.send_audio s.audio_frame_count
  { s with ret := r }.emit (Event.send_frame Enc.audio (some pts) r)

/-- The audio loop of lines 209-235, `for (int i = 0; i < total_audio_frames; i++)`. The first
argument is `total_audio_frames - i`; `i` and `audio_frame_count` advance together. A
failed send leaves the loop by `break`. -/
def audioLoop (L : Lib) : Nat → St → Flow
  | 0, s => Flow.next s
  | todo + 1, s =>
    if (audioSend L s).ret < 0 then Flow.next (audioSend L s)
    else
      (drain L Enc.audio (L.recv_audio s.audio_frame_count) (audioSend L s)).andThen fun s =>
        audioLoop L todo { s with audio_frame_count := s.audio_frame_count + 1 }

/-- The receive loop of a flush (lines 239-244 and 247-252): write packets for as long as
`avcodec_receive_packet` does not return a negative value. -/
def flushDrain (e : Enc) : List Int → St → St
  | [], s => s.emit (Event.receive_packet e AVERROR_EOF)
  | r :: rs, s =>
    let s := s.emit (Event.receive_packet e r)
    if 0 ≤ r then flushDrain e rs (s.emit (Event.write_frame e)) else s

/-- Lines 237-258: flush the video encoder, flush the audio encoder, write the trailer, set
`ret = 0`. -/
def finish (L : Lib) (s : St) : St :=
  let s := s.emit (Event.send_frame Enc.video none L.send_flush_video)
  let s := flushDrain Enc.video L.recv_flush_video s
  let s := s.emit (Event.send_frame Enc.audio none L.send_flush_audio)
  let s := flushDrain Enc.audio L.recv_flush_audio s
  let s := s.emit Event.write_trailer
  { s with ret := 0 }

/-- Lines 165-258: the two encode loops, then the flush and the trailer. Control reaches the
label `cleanup` either by a `goto` or by falling into it after line 258. -/
def encode (L : Lib) (s : St) : Flow :=
  (videoLoop L (total_frames - s.video_frame_count) s).andThen fun s =>
    (audioLoop L total_audio_frames s).andThen fun s =>
      Flow.cleanup (finish L s)

/-- Line 265, `avio_closep(&oc->pb)`: closes the file when there is one and clears the
pointer; on a `NULL` pointer it does nothing. -/
def avio_closep (s : St) : St :=
  if s.pb then { s with pb := false }.emit (Event.release Res.pb) else s

/-- The cleanup block, lines 260-266. -/
def cleanup (L : Lib) (s : St) : St :=
  let s := if s.video_frame then
    { s with video_frame := false }.emit (Event.release Res.video_frame) else s
  let s := if s.audio_frame then
    { s with audio_frame := false }.emit (Event.release Res.audio_frame) else s
  let s := if s.video_codec_ctx then
    { s with video_codec_ctx := false }.emit (Event.release Res.video_codec_ctx) else s
  let s := if s.audio_codec_ctx then
    { s with audio_codec_ctx := false }.emit (Event.release Res.audio_codec_ctx) else s
  let s := if s.oc && !L.nofile then avio_closep s else s
  if s.oc then s.emit (Event.release Res.oc) else s

/-- The body of the function up to the point where it leaves through `return -1` or
arrives at `cleanup`. -/
def body (L : Lib) : Flow :=
  (setup L).andThen (encode L)

/-- How the function was left. -/
inductive ExitKind where
  | direct : ExitKind
  | cleanup : ExitKind
  deriving DecidableEq, Repr

/-- What one call of `helloworld_av_write` did: the status returned, how the function was
left, the library calls in order, and the video frames handed to the encoder in order. -/
structure Run where
  ret : Int
  exit : ExitKind
  trace : List Event
  sent : List VideoFrame

/-- The function `helloworld_av_write`, under the library behaviour `L`. -/
def helloworld_av_write (L : Lib) : Run :=
  match body L with
  | Flow.returned v s => { ret := v, exit := ExitKind.direct, trace := s.trace, sent := s.sent }
  | Flow.cleanup s =>
    let s := cleanup L s
    { ret := s.ret, exit := ExitKind.cleanup, trace := s.trace, sent := s.sent }
  | Flow.next s =>
    let s := cleanup L s
    { ret := s.ret, exit := ExitKind.cleanup, trace := s.trace, sent := s.sent }

/-- The timestamps of the frames submitted to encoder `e`, in submission order. -/
def sentPts (e : Enc) : List Event → List Int
  | [] => []
  | Event.send_frame e' (some pts) _ :: t =>
    if e' = e then pts :: sentPts e t else sentPts e t
  | _ :: t => sentPts e t

/-- A library under which every call succeeds and no encoder ever has a packet ready before
its flush, on a platform without `__APPLE__`. -/
def okLib : Lib :=
  { apple := false, alloc_output_context2 := 0, enc_h264_videotoolbox := false,
    enc_libx264 := true, enc_h264 := true, enc_mpeg4 := true, enc_aac := true,
    new_stream_video := true, new_stream_audio := true, open2_video := 0, open2_audio := 0,
    nofile := false, avio_open := 0, write_header := 0,
    frame0 := { pts := AV_NOPTS_VALUE, linesize0 := 320, linesize1 := 160, linesize2 := 160,
                data0 := fun _ => 0, data1 := fun _ => 0, data2 := fun _ => 0 },
    send_video := fun _ => 0, recv_video := fun _ => [],
    send_audio := fun _ => 0, recv_audio := fun _ => [],
    send_flush_video := 0, recv_flush_video := [0, 0],
    send_flush_audio := 0, recv_flush_audio := [0] }

instance : DecidablePred GoodToken := fun t => by
  unfold GoodToken
  exact inferInstance

/-- The command of the tokenizer scenario of the specification. -/
def scenarioCommand : List Char := "-i foo.mp4 -c:v copy out.mp4".toList

/-- The tokens of `scenarioCommand`. -/
def scenarioTokens : List (List Char) :=
  ["-i".toList, "foo.mp4".toList, "-c:v".toList, "copy".toList, "out.mp4".toList]

/-- An `ffmpeg_main` that always reports success. -/
def mainOk : Nat → List Slot → Int := fun _ _ => 0

/-- A library as `okLib`, but built without `libx264` and without an MPEG-4 encoder. -/
def noVideoEncoderLib : Lib := { okLib with enc_libx264 := false, enc_mpeg4 := false }

/-- A library as `okLib`, but `avcodec_send_frame` answers `AVERROR(EINVAL)` for the very first
video frame. -/
def sendFailLib : Lib := { okLib with send_video := fun n => if n = 0 then -22 else 0 }

/-- A library as `okLib`, but `avformat_alloc_output_context2` answers `AVERROR(ENOMEM)`. -/
def allocFailLib : Lib := { okLib with alloc_output_context2 := -12 }

/-- The state a piece of the body ends in. -/
def Flow.st : Flow → St
  | Flow.next s => s
  | Flow.cleanup s => s
  | Flow.returned _ s => s

/-- Whether control left through the `return -1` of line 42. -/
def Flow.direct : Flow → Bool
  | Flow.returned _ _ => true
  | _ => false

/-- The locals other than `ret` and the record of calls. -/
def St.rest (s : St) : St := { s with ret := 0, trace := [] }

/-- The six pointers the cleanup block tests. -/
def St.has (s : St) : Res → Bool
  | Res.oc => s.oc
  | Res.pb => s.pb
  | Res.video_codec_ctx => s.video_codec_ctx
  | Res.audio_codec_ctx => s.audio_codec_ctx
  | Res.video_frame => s.video_frame
  | Res.audio_frame => s.audio_frame

/-- The calls an encode loop on encoder `e` makes: sends of real frames, receives and packet
writes for `e`. -/
def Event.isLoop (e : Enc) : Event → Bool
  | Event.send_frame e' (some _) _ => decide (e' = e)
  | Event.receive_packet e' _ => decide (e' = e)
  | Event.write_frame e' => decide (e' = e)
  | _ => false

/-- The calls of a flush of encoder `e` after its `NULL` frame: receives and packet writes. -/
def Event.isDrain (e : Enc) : Event → Bool
  | Event.receive_packet e' _ => decide (e' = e)
  | Event.write_frame e' => decide (e' = e)
  | _ => false

/-- Whether the call submits a frame (a real one or the `NULL` frame) to an encoder. -/
def Event.isSend : Event → Bool
  | Event.send_frame _ _ _ => true
  | _ => false

/-- Whether the call acquires or releases a resource. -/
def Event.isRes : Event → Bool
  | Event.acquire _ => true
  | Event.release _ => true
  | _ => false

/-- A piece of the body that ends in `f` when started in `s` did not leave through `return`,
touched no pointer, and added to the record only calls that satisfy `P`. -/
structure Facts (P : Event → Bool) (s : St) (f : Flow) : Prop where
  direct : f.direct = false
  has : f.st.has = s.has
  trace : ∃ d, f.st.trace = s.trace ++ d ∧ ∀ ev ∈ d, P ev = true

/-- A completed drain of encoder `e`: packets received and written, then one receive that
returns a negative value. -/
def Drained (e : Enc) (d : List Event) : Prop :=
  ∃ b r, d = b ++ [Event.receive_packet e r] ∧ r < 0 ∧
    ∀ ev ∈ b, ev = Event.write_frame e ∨ ∃ r', 0 ≤ r' ∧ ev = Event.receive_packet e r'

/-- The calls that are not acquisitions or releases. -/
def Event.notRes (ev : Event) : Bool := !ev.isRes

/-- The invariant of the body before `cleanup`: a resource has been acquired once when its
pointer is set and never otherwise, nothing has been released, and the file is only open
when there is a container whose format uses a file. -/
def Tracked (L : Lib) (s : St) : Prop :=
  (∀ r, s.trace.count (Event.acquire r) = if s.has r then 1 else 0) ∧
  (∀ r, s.trace.count (Event.release r) = 0) ∧
  (s.pb = true → L.nofile = false ∧ s.oc = true)

/-- The releases the cleanup block performs in state `s`, in order. -/
def releases (L : Lib) (s : St) : List Event :=
  (if s.video_frame then [Event.release Res.video_frame] else []) ++
  (if s.audio_frame then [Event.release Res.audio_frame] else []) ++
  (if s.video_codec_ctx then [Event.release Res.video_codec_ctx] else []) ++
  (if s.audio_codec_ctx then [Event.release Res.audio_codec_ctx] else []) ++
  (if s.oc && !L.nofile && s.pb then [Event.release Res.pb] else []) ++
  (if s.oc then [Event.release Res.oc] else [])

/-- The calls made before the encode loops: acquisitions and the header write. -/
def Event.isSetup : Event → Bool
  | Event.acquire _ => true
  | Event.write_header _ => true
  | _ => false

/-- What holds when the body arrives at `cleanup` or at the encode loops after the set-up
steps: the bookkeeping of `Tracked`, only set-up calls so far, and counters, frame buffer
and list of submitted frames as at entry. -/
structure SetupInv (L : Lib) (s : St) : Prop where
  tracked : Tracked L s
  quiet : ∀ ev ∈ s.trace, Event.isSetup ev = true
  counts : s.video_frame_count = 0 ∧ s.audio_frame_count = 0
  media : s.frame = L.frame0 ∧ s.sent = []

/-- The calls of lines 237-255: the two `NULL` frames, the receives and packet writes of the
two flushes, and the trailer. -/
def Event.isFinish : Event → Bool
  | Event.send_frame _ none _ => true
  | Event.receive_packet _ _ => true
  | Event.write_frame _ => true
  | Event.write_trailer => true
  | _ => false

/-- The calls of the encode loops and of the flush. -/
def Event.isEncode (ev : Event) : Bool :=
  Event.isLoop Enc.video ev || Event.isLoop Enc.audio ev || Event.isFinish ev

/-- Whether the call submits a real frame to encoder `e`. -/
def Event.isSendOf (e : Enc) : Event → Bool
  | Event.send_frame e' (some _) _ => decide (e' = e)
  | _ => false

/-- Every set-up step succeeds, so that the run reaches the encode loops. -/
def SetupOk (L : Lib) : Prop :=
  0 ≤ L.alloc_output_context2 ∧ find_video_codec L = true ∧ L.enc_aac = true ∧
  L.new_stream_video = true ∧ 0 ≤ L.open2_video ∧ L.new_stream_audio = true ∧
  0 ≤ L.open2_audio ∧ (L.nofile = false → 0 ≤ L.avio_open) ∧ 0 ≤ L.write_header

/-- The result `r` of a receive is not a hard error for the encode loops: it is a packet
(`0 ≤ r`), or `AVERROR(EAGAIN)`, or `AVERROR_EOF`. -/
def NoHardError (L : Lib) (r : Int) : Prop :=
  r < 0 → r = AVERROR_EAGAIN L.apple ∨ r = AVERROR_EOF

instance (L : Lib) (r : Int) : Decidable (NoHardError L r) := by
  unfold NoHardError
  exact inferInstance

/-- The content of a submitted video frame: its timestamp is a frame index `n` below
`total_frames`, the luma byte at row `y`, column `x` is `(x + y + n) mod 256`, and both chroma
planes hold 128 at every position of the half-size grid. -/
def FrameOk (f : VideoFrame) : Prop :=
  ∃ n : Nat, n < total_frames ∧ f.pts = (n : Int) ∧
    (∀ x y, x < width → y < height → f.data0 (y * f.linesize0 + x) = (x + y + n) % 256) ∧
    (∀ x y, x < width / 2 → y < height / 2 →
      f.data1 (y * f.linesize1 + x) = 128 ∧ f.data2 (y * f.linesize2 + x) = 128)

/-- The invariant on the frame buffer and on the frames submitted so far: the line sizes are
those the library chose, every submitted frame has the content `FrameOk`, and the submitted
frames are, in order, those of the video sends on record. -/
structure SentInv (L : Lib) (s : St) : Prop where
  ls : s.frame.linesize0 = L.frame0.linesize0 ∧ s.frame.linesize1 = L.frame0.linesize1 ∧
    s.frame.linesize2 = L.frame0.linesize2
  ok : ∀ f ∈ s.sent, FrameOk f
  link : s.sent.map VideoFrame.pts = sentPts Enc.video s.trace

instance (L : Lib) : Decidable (SetupOk L) := by
  unfold SetupOk
  exact inferInstance

/-- A library as `okLib`, but the video encoder has a packet ready after every second frame
and the audio encoder after every frame. -/
def packetLib : Lib :=
  { okLib with
    recv_video := fun n => if n % 2 = 0 then [] else [0, AVERROR_EAGAIN false]
    recv_audio := fun _ => [0] }

/-- A library as `okLib`, but with frame lines padded beyond the picture width. -/
def paddedLib : Lib :=
  { okLib with
    frame0 := { pts := AV_NOPTS_VALUE, linesize0 := 384, linesize1 := 192, linesize2 := 192,
                data0 := fun _ => 0, data1 := fun _ => 0, data2 := fun _ => 0 } }

/-! ### The allocations whose result the code does not check

`helloworld_av_write` uses the results of `avcodec_alloc_context3` (lines 81 and 112),
`av_frame_alloc` (lines 152 and 158) and `av_frame_get_buffer` (lines 156 and 163) without
testing them. `Lib` and the definitions above describe the runs in which these six calls
succeed. The definitions below add their outcome: when one of them fails, the statement that
next goes through the pointer dereferences `NULL`, the behaviour of the function is undefined
from there on, and the cleanup block is not reached. -/

/-- The outcome of the six unchecked allocations: `true` when the call succeeds. -/
structure Unchecked where
  /-- whether `avcodec_alloc_context3(video_codec)` returns a context (line 81) -/
  alloc_context3_video : Bool
  /-- whether `avcodec_alloc_context3(audio_codec)` returns a context (line 112) -/
  alloc_context3_audio : Bool
  /-- whether the first `av_frame_alloc` returns a frame (line 152) -/
  frame_alloc_video : Bool
  /-- whether `av_frame_get_buffer(video_frame, 0)` attaches a buffer (line 156) -/
  frame_get_buffer_video : Bool
  /-- whether the second `av_frame_alloc` returns a frame (line 158) -/
  frame_alloc_audio : Bool
  /-- whether `av_frame_get_buffer(audio_frame, 0)` attaches a buffer (line 163) -/
  frame_get_buffer_audio : Bool
  deriving DecidableEq, Repr

/-- All six unchecked allocations succeed. -/
def Unchecked.allSucceed (U : Unchecked) : Prop :=
  U.alloc_context3_video = true ∧ U.alloc_context3_audio = true ∧
  U.frame_alloc_video = true ∧ U.frame_get_buffer_video = true ∧
  U.frame_alloc_audio = true ∧ U.frame_get_buffer_audio = true

instance (U : Unchecked) : Decidable U.allSucceed := by
  unfold Unchecked.allSucceed
  exact inferInstance

/-- Where control is when the unchecked allocations may fail: as in `Flow`, or at a
dereference of `NULL` in the given state. -/
inductive FlowU where
  | go : Flow → FlowU
  | undefined : St → FlowU

/-- Sequencing for `FlowU`: the statements that follow run only when control falls through
to them. -/
def FlowU.andThen (f : FlowU) (k : St → FlowU) : FlowU :=
  match f with
  | FlowU.go (Flow.next s) => k s
  | other => other

/-- Lines 73-102 with the outcome of `avcodec_alloc_context3`: when it returns `NULL`, line 82
(`video_codec_ctx->width = 320`) dereferences it. -/
def openVideoU (U : Unchecked) (L : Lib) (s : St) : FlowU :=
  if L.new_stream_video = false then FlowU.go (Flow.cleanup s)
  else if U.alloc_context3_video = false then FlowU.undefined s
  else
    let s := { s with video_codec_ctx := true }.emit (Event.acquire Res.video_codec_ctx)
    let s := { s with ret := L.open2_video }
    if s.ret < 0 then FlowU.go (Flow.cleanup s) else FlowU.go (Flow.next s)

/-- Lines 104-133 with the outcome of `avcodec_alloc_context3`: when it returns `NULL`, line 113
(`audio_codec_ctx->sample_fmt = ...`) dereferences it. -/
def openAudioU (U : Unchecked) (L : Lib) (s : St) : FlowU :=
  if L.new_stream_audio = false then FlowU.go (Flow.cleanup s)
  else if U.alloc_context3_audio = false then FlowU.undefined s
  else
    let s := { s with audio_codec_ctx := true }.emit (Event.acquire Res.audio_codec_ctx)
    let s := { s with ret := L.open2_audio }
    if s.ret < 0 then FlowU.go (Flow.cleanup s) else FlowU.go (Flow.next s)

/-- Lines 151-163 with the outcome of the two `av_frame_alloc` calls: a `NULL` frame is
dereferenced by the assignment that follows the call (lines 153 and 159). A failed
`av_frame_get_buffer` leaves the frame without data and goes unnoticed here. -/
def allocFramesU (U : Unchecked) (s : St) : FlowU :=
  if U.frame_alloc_video = false then FlowU.undefined s
  else
    let s := { s with video_frame := true }.emit (Event.acquire Res.video_frame)
    if U.frame_alloc_audio = false then FlowU.undefined s
    else
      let s := { s with audio_frame := true }.emit (Event.acquire Res.audio_frame)
      FlowU.go (Flow.next s)

/-- Lines 39-163 with the outcome of the unchecked allocations. -/
def setupU (U : Unchecked) (L : Lib) : FlowU :=
  ((((((FlowU.go (allocContext L)).andThen (fun s => FlowU.go (findEncoders L s))).andThen
    (openVideoU U L)).andThen (openAudioU U L)).andThen
    (fun s => FlowU.go (openFile L s))).andThen
    (fun s => FlowU.go (writeHeader L s))).andThen (allocFramesU U)

/-- Lines 165-258 with the outcome of the two `av_frame_get_buffer` calls: a video frame
without data is written through at line 173 in the first iteration of the video loop, an
audio frame without data at line 214 in the first iteration of the audio loop, which is
reached when the video loop did not jump to `cleanup`. -/
def encodeU (U : Unchecked) (L : Lib) (s : St) : FlowU :=
  if U.frame_get_buffer_video = false ∧ s.video_frame_count < total_frames then
    FlowU.undefined s
  else
    (FlowU.go (videoLoop L (total_frames - s.video_frame_count) s)).andThen fun s =>
      if U.frame_get_buffer_audio = false ∧ 0 < total_audio_frames then FlowU.undefined s
      else
        FlowU.go ((audioLoop L total_audio_frames s).andThen fun s =>
          Flow.cleanup (finish L s))

/-- What a call of `helloworld_av_write` amounts to when the unchecked allocations may fail:
it returns as described by a `Run`, or it dereferences `NULL` after the calls on record,
with the resources acquired by then still held. -/
inductive Outcome where
  | finished : Run → Outcome
  | undefined : List Event → Outcome

/-- The way out of the function from the end of its body: `return -1`, or the cleanup block
followed by `return ret`. -/
def leave (L : Lib) (f : Flow) : Run :=
  match f with
  | Flow.returned v s => { ret := v, exit := ExitKind.direct, trace := s.trace, sent := s.sent }
  | Flow.cleanup s =>
    let s := cleanup L s
    { ret := s.ret, exit := ExitKind.cleanup, trace := s.trace, sent := s.sent }
  | Flow.next s =>
    let s := cleanup L s
    { ret := s.ret, exit := ExitKind.cleanup, trace := s.trace, sent := s.sent }

/-- The function `helloworld_av_write` under the library behaviour `L` and the outcome `U` of
the unchecked allocations. -/
def helloworld_av_write_unchecked (U : Unchecked) (L : Lib) : Outcome :=
  match (setupU U L).andThen (encodeU U L) with
  | FlowU.go f => Outcome.finished (leave L f)
  | FlowU.undefined s => Outcome.undefined s.trace

/-- All unchecked allocations succeed. -/
def allocOk : Unchecked :=
  { alloc_context3_video := true, alloc_context3_audio := true, frame_alloc_video := true,
    frame_get_buffer_video := true, frame_alloc_audio := true, frame_get_buffer_audio := true }

/-- A library as `okLib`, but `avformat_write_header` answers `AVERROR(EIO)`. -/
def headerFailLib : Lib := { okLib with write_header := -5 }

/-! ## Lemmas on the command-line splitter -/

theorem SP_ne_NUL : SP ≠ NUL := by decide

theorem joinSp_cons (t : List Char) (ts : List (List Char)) (h : ts ≠ []) :
    joinSp (t :: ts) = t ++ SP :: joinSp ts := by
  cases ts with
  | nil => exact absurd rfl h
  | cons u us => rfl

theorem intercalate_eq_joinSp (ts : List (List Char)) : List.intercalate [SP] ts = joinSp ts := by
  induction ts with
  | nil => rfl
  | cons t ts ih =>
    cases ts with
    | nil => simp [List.intercalate, joinSp]
    | cons u us =>
      have h : List.intercalate [SP] (t :: u :: us) = t ++ SP :: List.intercalate [SP] (u :: us) := by
        simp [List.intercalate, List.intersperse]
      rw [h, ih]
      rfl

theorem countArgs_skip (t r : List Char) (a : Nat) (hsp : SP ∉ t) (hnul : NUL ∉ t) :
    countArgs (t ++ r) a = countArgs r a := by
  induction t with
  | nil => rfl
  | cons c t ih =>
    have hc1 : c ≠ NUL := fun h => hnul (by simp [h])
    have hc2 : c ≠ SP := fun h => hsp (by simp [h])
    have ih2 := ih (fun h => hsp (List.mem_cons_of_mem _ h)) (fun h => hnul (List.mem_cons_of_mem _ h))
    simp [countArgs, hc1, hc2, ih2]

theorem deref_joinSp (t : List Char) (ts : List (List Char)) (h : GoodToken t) :
    deref (joinSp (t :: ts)) ≠ SP ∧ deref (joinSp (t :: ts)) ≠ NUL := by
  obtain ⟨hne, hsp, hnul⟩ := h
  cases t with
  | nil => exact absurd rfl hne
  | cons c t =>
    have hd : deref (joinSp ((c :: t) :: ts)) = c := by
      cases ts <;> simp [joinSp, deref]
    rw [hd]
    exact ⟨fun h => hsp (by simp [h]), fun h => hnul (by simp [h])⟩

theorem countArgs_joinSp (ts : List (List Char)) (a : Nat) (h : ∀ t ∈ ts, GoodToken t) :
    countArgs (joinSp ts) a = a + (ts.length - 1) := by
  induction ts generalizing a with
  | nil => rfl
  | cons t ts ih =>
    cases ts with
    | nil =>
      have ht := h t (by simp)
      have := countArgs_skip t [] a ht.2.1 ht.2.2
      simpa [joinSp, countArgs] using this
    | cons u us =>
      have ht := h t (by simp)
      have hrest : ∀ x ∈ u :: us, GoodToken x := fun x hx => h x (List.mem_cons_of_mem _ hx)
      have hd := deref_joinSp u us (h u (by simp))
      rw [joinSp_cons t (u :: us) (by simp), countArgs_skip _ _ _ ht.2.1 ht.2.2]
      have hstep : countArgs (SP :: joinSp (u :: us)) a = countArgs (joinSp (u :: us)) (a + 1) := by
        simp [countArgs, SP_ne_NUL, hd.1, hd.2]
      rw [hstep, ih (a + 1) hrest]
      simp
      omega

theorem strdup_id (s : List Char) (h : NUL ∉ s) : strdup s = s := by
  induction s with
  | nil => rfl
  | cons c s ih =>
    have hc : c ≠ NUL := fun e => h (by simp [e])
    simp [strdup, hc, ih (fun e => h (List.mem_cons_of_mem _ e))]

theorem joinSp_no_NUL (ts : List (List Char)) (h : ∀ t ∈ ts, GoodToken t) : NUL ∉ joinSp ts := by
  induction ts with
  | nil => simp [joinSp]
  | cons t ts ih =>
    cases ts with
    | nil => simpa [joinSp] using (h t (by simp)).2.2
    | cons u us =>
      rw [joinSp_cons t (u :: us) (by simp)]
      intro hmem
      rcases List.mem_append.mp hmem with h1 | h1
      · exact (h t (by simp)).2.2 h1
      · rcases List.mem_cons.mp h1 with h2 | h2
        · exact SP_ne_NUL h2.symm
        · exact ih (fun x hx => h x (List.mem_cons_of_mem _ hx)) h2

theorem scanToken_end (t : List Char) (hsp : SP ∉ t) (hnul : NUL ∉ t) :
    scanToken t = (t, []) := by
  induction t with
  | nil => rfl
  | cons c t ih =>
    have hc1 : c ≠ NUL := fun h => hnul (by simp [h])
    have hc2 : c ≠ SP := fun h => hsp (by simp [h])
    have ih2 := ih (fun h => hsp (List.mem_cons_of_mem _ h)) (fun h => hnul (List.mem_cons_of_mem _ h))
    simp [scanToken, hc1, hc2, ih2]

theorem scanToken_sp (t r : List Char) (hsp : SP ∉ t) (hnul : NUL ∉ t) :
    scanToken (t ++ SP :: r) = (t, r) := by
  induction t with
  | nil => simp [scanToken, SP_ne_NUL]
  | cons c t ih =>
    have hc1 : c ≠ NUL := fun h => hnul (by simp [h])
    have hc2 : c ≠ SP := fun h => hsp (by simp [h])
    have ih2 := ih (fun h => hsp (List.mem_cons_of_mem _ h)) (fun h => hnul (List.mem_cons_of_mem _ h))
    simp [scanToken, hc1, hc2, ih2]

theorem strtok_joinSp (t : List Char) (ts : List (List Char)) (h : GoodToken t) :
    strtok (joinSp (t :: ts)) = some (t, joinSp ts) := by
  obtain ⟨hne, hsp, hnul⟩ := h
  cases t with
  | nil => exact absurd rfl hne
  | cons c t =>
    have hc1 : c ≠ NUL := fun h => hnul (by simp [h])
    have hc2 : c ≠ SP := fun h => hsp (by simp [h])
    cases ts with
    | nil =>
      have e := scanToken_end (c :: t) hsp hnul
      simp [strtok, joinSp, skipDelims, hc1, hc2, e]
    | cons u us =>
      have e := scanToken_sp (c :: t) (joinSp (u :: us)) hsp hnul
      rw [joinSp_cons _ _ (by simp)]
      simp only [List.cons_append] at e
      simp [strtok, skipDelims, hc1, hc2, e]

theorem tokenLoop_joinSp (ts : List (List Char)) :
    ∀ (room : Nat) (pre suf : List Slot), (∀ t ∈ ts, GoodToken t) → ts.length ≤ room →
      ts.length ≤ suf.length →
      (tokenLoop room (strtok (joinSp ts)) pre.length (pre ++ suf)).1
        = pre ++ ts.map Slot.str ++ suf.drop ts.length := by
  induction ts with
  | nil =>
    intro room pre suf _ _ _
    cases room <;> simp [joinSp, strtok, skipDelims, tokenLoop]
  | cons t ts ih =>
    intro room pre suf h hroom hsuf
    have ht := h t (by simp)
    have hrest : ∀ x ∈ ts, GoodToken x := fun x hx => h x (List.mem_cons_of_mem _ hx)
    cases room with
    | zero => simp at hroom
    | succ room =>
      cases suf with
      | nil => simp at hsuf
      | cons x suf =>
        rw [strtok_joinSp t ts ht]
        simp only [tokenLoop, strdup_id t ht.2.2]
        have hset : (pre ++ x :: suf).set pre.length (Slot.str t) = (pre ++ [Slot.str t]) ++ suf := by
          simp
        have hlen : pre.length + 1 = (pre ++ [Slot.str t]).length := by simp
        rw [hset, hlen, ih room (pre ++ [Slot.str t]) suf hrest (by simpa using hroom)
          (by simpa using hsuf)]
        simp

/-! ## Lemmas on the pieces of `helloworld_av_write` -/

theorem drain_rest (L : Lib) (e : Enc) : ∀ (rs : List Int) (s : St),
    (drain L e rs s).st.rest = s.rest := by
  intro rs
  induction rs with
  | nil => intro s; rfl
  | cons r rs ih =>
    intro s
    simp only [drain]
    split
    · rfl
    · split
      · rfl
      · rw [ih]; rfl

theorem drain_direct (L : Lib) (e : Enc) : ∀ (rs : List Int) (s : St),
    (drain L e rs s).direct = false := by
  intro rs
  induction rs with
  | nil => intro s; rfl
  | cons r rs ih =>
    intro s
    simp only [drain]
    split
    · rfl
    · split
      · rfl
      · exact ih _

theorem drain_trace (L : Lib) (e : Enc) : ∀ (rs : List Int) (s : St),
    ∃ d, (drain L e rs s).st.trace = s.trace ++ d ∧ ∀ ev ∈ d, Event.isDrain e ev = true := by
  intro rs
  induction rs with
  | nil =>
    intro s
    exact ⟨[Event.receive_packet e (AVERROR_EAGAIN L.apple)], rfl, by simp [Event.isDrain]⟩
  | cons r rs ih =>
    intro s
    simp only [drain]
    split
    · exact ⟨[Event.receive_packet e r], rfl, by simp [Event.isDrain]⟩
    · split
      · exact ⟨[Event.receive_packet e r], rfl, by simp [Event.isDrain]⟩
      · obtain ⟨d, hd, hall⟩ := ih (({ s with ret := r }.emit (Event.receive_packet e r)).emit
          (Event.write_frame e))
        refine ⟨Event.receive_packet e r :: Event.write_frame e :: d, ?_, ?_⟩
        · rw [hd]; simp [St.emit]
        · intro ev hev
          simp only [List.mem_cons] at hev
          rcases hev with h | h | h
          · simp [h, Event.isDrain]
          · simp [h, Event.isDrain]
          · exact hall ev h

theorem isLoop_of_isDrain (e : Enc) (ev : Event) (h : Event.isDrain e ev = true) :
    Event.isLoop e ev = true := by
  cases ev <;> simp_all [Event.isDrain, Event.isLoop]

theorem has_of_rest {s s' : St} (h : s'.rest = s.rest) : s'.has = s.has := by
  funext r
  have h1 := congrArg St.oc h
  have h2 := congrArg St.pb h
  have h3 := congrArg St.video_codec_ctx h
  have h4 := congrArg St.audio_codec_ctx h
  have h5 := congrArg St.video_frame h
  have h6 := congrArg St.audio_frame h
  simp only [St.rest] at h1 h2 h3 h4 h5 h6
  cases r <;> simp [St.has, *]

theorem Facts.mono {P Q : Event → Bool} {s : St} {f : Flow} (hPQ : ∀ ev, P ev = true → Q ev = true)
    (h : Facts P s f) : Facts Q s f := by
  obtain ⟨d, hd, hall⟩ := h.trace
  exact ⟨h.direct, h.has, d, hd, fun ev hev => hPQ ev (hall ev hev)⟩

theorem drain_facts (L : Lib) (e : Enc) (rs : List Int) (s : St) :
    Facts (Event.isLoop e) s (drain L e rs s) := by
  refine ⟨drain_direct L e rs s, has_of_rest (drain_rest L e rs s), ?_⟩
  obtain ⟨d, hd, hall⟩ := drain_trace L e rs s
  exact ⟨d, hd, fun ev hev => isLoop_of_isDrain e ev (hall ev hev)⟩

theorem Facts.step {P : Event → Bool} {s : St} (s1 : St) {f : Flow} (ev : Event)
    (hev : P ev = true) (hhas : s1.has = s.has) (htr : s1.trace = s.trace ++ [ev])
    (h : Facts P s1 f) : Facts P s f := by
  refine ⟨h.direct, h.has.trans hhas, ?_⟩
  obtain ⟨d, hd, hall⟩ := h.trace
  refine ⟨ev :: d, by rw [hd, htr]; simp, ?_⟩
  intro x hx
  rcases List.mem_cons.mp hx with h1 | h1
  · rw [h1]; exact hev
  · exact hall x h1

theorem Facts.trans {P : Event → Bool} {s s1 : St} {f : Flow}
    (h1 : Facts P s (Flow.next s1)) (h2 : Facts P s1 f) : Facts P s f := by
  refine ⟨h2.direct, h2.has.trans h1.has, ?_⟩
  obtain ⟨d1, hd1, hall1⟩ := h1.trace
  obtain ⟨d2, hd2, hall2⟩ := h2.trace
  refine ⟨d1 ++ d2, ?_, ?_⟩
  · rw [hd2]
    simp only [Flow.st] at hd1
    rw [hd1, List.append_assoc]
  · intro x hx
    rcases List.mem_append.mp hx with h | h
    · exact hall1 x h
    · exact hall2 x h

theorem Facts.bind {P : Event → Bool} {s : St} {f : Flow} {k : St → Flow}
    (h1 : Facts P s f) (h2 : ∀ s1, f = Flow.next s1 → Facts P s1 (k s1)) :
    Facts P s (f.andThen k) := by
  cases f with
  | next s1 => exact Facts.trans h1 (h2 s1 rfl)
  | cleanup s1 => exact h1
  | returned v s1 => exact h1

theorem videoLoop_facts (L : Lib) : ∀ (todo : Nat) (s : St),
    Facts (Event.isLoop Enc.video) s (videoLoop L todo s) := by
  intro todo
  induction todo with
  | zero => intro s; exact ⟨rfl, rfl, [], by simp [videoLoop, Flow.st], by simp⟩
  | succ todo ih =>
    intro s
    simp only [videoLoop]
    split
    · exact ⟨rfl, rfl, [_], rfl, by simp [Event.isLoop]⟩
    · refine Facts.step (videoSend L s) (Event.send_frame Enc.video
        (some (genVideoFrame s.frame s.video_frame_count).pts)
        (L.send_video s.video_frame_count)) (by simp [Event.isLoop]) rfl rfl ?_
      refine Facts.bind (drain_facts L Enc.video _ _) ?_
      intro s1 _
      have := ih { s1 with video_frame_count := s1.video_frame_count + 1 }
      exact ⟨this.direct, this.has, this.trace⟩

theorem audioLoop_facts (L : Lib) : ∀ (todo : Nat) (s : St),
    Facts (Event.isLoop Enc.audio) s (audioLoop L todo s) := by
  intro todo
  induction todo with
  | zero => intro s; exact ⟨rfl, rfl, [], by simp [audioLoop, Flow.st], by simp⟩
  | succ todo ih =>
    intro s
    simp only [audioLoop]
    split
    · exact ⟨rfl, rfl, [_], rfl, by simp [Event.isLoop]⟩
    · refine Facts.step (audioSend L s) (Event.send_frame Enc.audio
        (some ((s.audio_frame_count * audio_samples_per_frame : Nat) : Int))
        (L.send_audio s.audio_frame_count)) (by simp [Event.isLoop]) rfl rfl ?_
      refine Facts.bind (drain_facts L Enc.audio _ _) ?_
      intro s1 _
      have := ih { s1 with audio_frame_count := s1.audio_frame_count + 1 }
      exact ⟨this.direct, this.has, this.trace⟩

theorem flushDrain_rest (e : Enc) : ∀ (rs : List Int) (s : St),
    (flushDrain e rs s).rest = s.rest ∧ (flushDrain e rs s).ret = s.ret := by
  intro rs
  induction rs with
  | nil => intro s; exact ⟨rfl, rfl⟩
  | cons r rs ih =>
    intro s
    simp only [flushDrain]
    split
    · exact ih _
    · exact ⟨rfl, rfl⟩

theorem flushDrain_trace (e : Enc) : ∀ (rs : List Int) (s : St),
    ∃ d, (flushDrain e rs s).trace = s.trace ++ d ∧ Drained e d := by
  intro rs
  induction rs with
  | nil =>
    intro s
    exact ⟨[Event.receive_packet e AVERROR_EOF], rfl, [], AVERROR_EOF, rfl, by decide, by simp⟩
  | cons r rs ih =>
    intro s
    simp only [flushDrain]
    split
    · rename_i hr
      obtain ⟨d, hd, b, r', hb, hr', hall⟩ := ih ((s.emit (Event.receive_packet e r)).emit
        (Event.write_frame e))
      refine ⟨Event.receive_packet e r :: Event.write_frame e :: d, ?_, ?_⟩
      · rw [hd]; simp [St.emit]
      · refine ⟨Event.receive_packet e r :: Event.write_frame e :: b, r', by simp [hb], hr', ?_⟩
        intro ev hev
        simp only [List.mem_cons] at hev
        rcases hev with h | h | h
        · exact Or.inr ⟨r, hr, h⟩
        · exact Or.inl h
        · exact hall ev h
    · rename_i hr
      exact ⟨[Event.receive_packet e r], rfl, [], r, rfl, by omega, by simp⟩

theorem cleanup_trace (L : Lib) (s : St) :
    (cleanup L s).trace = s.trace ++ releases L s ∧ (cleanup L s).ret = s.ret ∧
      (cleanup L s).sent = s.sent := by
  obtain ⟨ret, oc, pb, vc, ac, vf, af, vn, an, fr, tr, se⟩ := s
  cases hn : L.nofile <;> cases oc <;> cases pb <;> cases vc <;> cases ac <;> cases vf <;>
    cases af <;> simp [cleanup, avio_closep, releases, St.emit, hn]

theorem count_ite_single (b : Bool) (x y : Event) :
    (if b = true then [x] else []).count y = if b = true ∧ x = y then 1 else 0 := by
  cases b <;> simp [List.count_cons]

theorem count_releases (L : Lib) (s : St) (h : s.pb = true → L.nofile = false ∧ s.oc = true)
    (r : Res) : (releases L s).count (Event.release r) = (if s.has r then 1 else 0) ∧
      (releases L s).count (Event.acquire r) = 0 := by
  constructor
  · unfold releases
    simp only [List.count_append, count_ite_single]
    cases r <;> simp [St.has]
    by_cases hp : s.pb = true
    · simp [hp, h hp]
    · simp [hp]
  · unfold releases
    simp only [List.count_append, count_ite_single]
    simp

theorem setupInv_intro (L : Lib) (s : St)
    (h1 : ∀ r, s.trace.count (Event.acquire r) = if s.has r then 1 else 0)
    (h2 : ∀ ev ∈ s.trace, Event.isSetup ev = true)
    (h3 : s.pb = true → L.nofile = false ∧ s.oc = true)
    (h4 : s.video_frame_count = 0 ∧ s.audio_frame_count = 0)
    (h5 : s.frame = L.frame0 ∧ s.sent = []) : SetupInv L s := by
  refine ⟨⟨h1, ?_, h3⟩, h2, h4, h5⟩
  intro r
  apply List.count_eq_zero.mpr
  intro hmem
  have := h2 _ hmem
  simp [Event.isSetup] at this

theorem setup_cases (L : Lib) :
    (L.alloc_output_context2 < 0 ∧
      setup L = Flow.returned (-1) { St.init L with ret := L.alloc_output_context2 }) ∨
    (0 ≤ L.alloc_output_context2 ∧ ∃ s, SetupInv L s ∧
      (setup L = Flow.cleanup s ∨
        (setup L = Flow.next s ∧ ∃ pre h, 0 ≤ h ∧ s.trace = pre ++ [Event.write_header h,
          Event.acquire Res.video_frame, Event.acquire Res.audio_frame]))) := by
  unfold setup allocContext
  by_cases h1 : L.alloc_output_context2 < 0
  · left
    simp [h1, Flow.andThen]
  · right
    refine ⟨by omega, ?_⟩
    simp only [h1, if_false, Flow.andThen, findEncoders]
    by_cases h2 : find_video_codec L = false
    · simp only [h2, if_true]
      exact ⟨_, setupInv_intro L _ (by intro r; cases r <;> simp [St.has, St.emit, St.init])
        (by simp [St.emit, St.init, Event.isSetup]) (by simp [St.emit, St.init])
        (by simp [St.emit, St.init]) (by simp [St.emit, St.init]), Or.inl rfl⟩
    · simp only [h2, if_false]
      by_cases h3 : L.enc_aac = false
      · simp only [h3, if_true]
        exact ⟨_, setupInv_intro L _ (by intro r; cases r <;> simp [St.has, St.emit, St.init])
          (by simp [St.emit, St.init, Event.isSetup]) (by simp [St.emit, St.init])
          (by simp [St.emit, St.init]) (by simp [St.emit, St.init]), Or.inl rfl⟩
      · simp only [h3, if_false, openVideo]
        by_cases h4 : L.new_stream_video = false
        · simp only [h4, if_true]
          exact ⟨_, setupInv_intro L _ (by intro r; cases r <;> simp [St.has, St.emit, St.init])
            (by simp [St.emit, St.init, Event.isSetup]) (by simp [St.emit, St.init])
            (by simp [St.emit, St.init]) (by simp [St.emit, St.init]), Or.inl rfl⟩
        · simp only [h4, if_false]
          by_cases h5 : L.open2_video < 0
          · simp only [h5, if_true]
            exact ⟨_, setupInv_intro L _ (by intro r; cases r <;> simp [St.has, St.emit, St.init])
              (by simp [St.emit, St.init, Event.isSetup]) (by simp [St.emit, St.init])
              (by simp [St.emit, St.init]) (by simp [St.emit, St.init]), Or.inl rfl⟩
          · simp only [h5, if_false, openAudio]
            by_cases h6 : L.new_stream_audio = false
            · simp only [h6, if_true]
              exact ⟨_, setupInv_intro L _ (by intro r; cases r <;> simp [St.has, St.emit, St.init])
                (by simp [St.emit, St.init, Event.isSetup]) (by simp [St.emit, St.init])
                (by simp [St.emit, St.init]) (by simp [St.emit, St.init]), Or.inl rfl⟩
            · simp only [h6, if_false]
              by_cases h7 : L.open2_audio < 0
              · simp only [h7, if_true]
                exact ⟨_, setupInv_intro L _ (by intro r; cases r <;> simp [St.has, St.emit, St.init])
                  (by simp [St.emit, St.init, Event.isSetup]) (by simp [St.emit, St.init])
                  (by simp [St.emit, St.init]) (by simp [St.emit, St.init]), Or.inl rfl⟩
              · simp only [h7, if_false, openFile]
                by_cases h8 : L.nofile = false
                · simp only [h8, if_true]
                  by_cases h9 : L.avio_open < 0
                  · simp only [h9, if_true]
                    exact ⟨_, setupInv_intro L _ (by intro r; cases r <;> simp [St.has, St.emit, St.init])
                      (by simp [St.emit, St.init, Event.isSetup]) (by simp [St.emit, St.init, h8])
                      (by simp [St.emit, St.init]) (by simp [St.emit, St.init]), Or.inl rfl⟩
                  · simp only [h9, if_false, writeHeader, St.emit]
                    by_cases h10 : L.write_header < 0
                    · simp only [h10, if_true]
                      exact ⟨_, setupInv_intro L _ (by intro r; cases r <;> simp [St.has, St.emit, St.init])
                        (by simp [St.emit, St.init, Event.isSetup]) (by simp [St.emit, St.init, h8])
                        (by simp [St.emit, St.init]) (by simp [St.emit, St.init]), Or.inl rfl⟩
                    · simp only [h10, if_false, allocFrames]
                      exact ⟨_, setupInv_intro L _ (by intro r; cases r <;> simp [St.has, St.emit, St.init])
                        (by simp [St.emit, St.init, Event.isSetup]) (by simp [St.emit, St.init, h8])
                        (by simp [St.emit, St.init]) (by simp [St.emit, St.init]),
                        Or.inr ⟨rfl, [Event.acquire Res.oc, Event.acquire Res.video_codec_ctx, Event.acquire Res.audio_codec_ctx, Event.acquire Res.pb], L.write_header, by omega, by simp [St.emit, St.init]⟩⟩
                · simp only [h8, if_false, writeHeader, St.emit]
                  by_cases h10 : L.write_header < 0
                  · simp only [h10, if_true]
                    exact ⟨_, setupInv_intro L _ (by intro r; cases r <;> simp [St.has, St.emit, St.init])
                      (by simp [St.emit, St.init, Event.isSetup]) (by simp [St.emit, St.init, h8])
                      (by simp [St.emit, St.init]) (by simp [St.emit, St.init]), Or.inl rfl⟩
                  · simp only [h10, if_false, allocFrames]
                    exact ⟨_, setupInv_intro L _ (by intro r; cases r <;> simp [St.has, St.emit, St.init])
                      (by simp [St.emit, St.init, Event.isSetup]) (by simp [St.emit, St.init, h8])
                      (by simp [St.emit, St.init]) (by simp [St.emit, St.init]),
                      Or.inr ⟨rfl, [Event.acquire Res.oc, Event.acquire Res.video_codec_ctx, Event.acquire Res.audio_codec_ctx], L.write_header, by omega, by simp [St.emit, St.init]⟩⟩

theorem count_eq_zero_of_notRes (d : List Event) (h : ∀ ev ∈ d, Event.notRes ev = true) (r : Res) :
    d.count (Event.acquire r) = 0 ∧ d.count (Event.release r) = 0 := by
  constructor
  · apply List.count_eq_zero.mpr
    intro hmem
    have := h _ hmem
    simp [Event.notRes, Event.isRes] at this
  · apply List.count_eq_zero.mpr
    intro hmem
    have := h _ hmem
    simp [Event.notRes, Event.isRes] at this

theorem Tracked.of_facts {L : Lib} {s : St} {f : Flow} (ht : Tracked L s)
    (h : Facts Event.notRes s f) : Tracked L f.st := by
  obtain ⟨d, hd, hall⟩ := h.trace
  obtain ⟨h1, h2, h3⟩ := ht
  refine ⟨?_, ?_, ?_⟩
  · intro r
    rw [hd, List.count_append, (count_eq_zero_of_notRes d hall r).1, h.has, h1 r]
    rfl
  · intro r
    rw [hd, List.count_append, (count_eq_zero_of_notRes d hall r).2, h2 r]
  · intro hpb
    have e1 : f.st.pb = s.pb := congrFun h.has Res.pb
    have e2 : f.st.oc = s.oc := congrFun h.has Res.oc
    rw [e2]
    exact h3 (e1 ▸ hpb)

theorem Drained.isDrain {e : Enc} {d : List Event} (h : Drained e d) :
    ∀ ev ∈ d, Event.isDrain e ev = true := by
  obtain ⟨b, r, hd, _, hall⟩ := h
  intro ev hev
  rw [hd] at hev
  rcases List.mem_append.mp hev with h1 | h1
  · rcases hall ev h1 with h2 | ⟨r', _, h2⟩ <;> simp [h2, Event.isDrain]
  · simp only [List.mem_singleton] at h1
    simp [h1, Event.isDrain]

theorem isFinish_of_isDrain (e : Enc) (ev : Event) (h : Event.isDrain e ev = true) :
    Event.isFinish ev = true := by
  cases ev <;> simp_all [Event.isDrain, Event.isFinish]

theorem finish_trace (L : Lib) (s : St) :
    (∃ dv da, (finish L s).trace = s.trace ++ (Event.send_frame Enc.video none L.send_flush_video
        :: dv ++ Event.send_frame Enc.audio none L.send_flush_audio :: da ++ [Event.write_trailer])
      ∧ Drained Enc.video dv ∧ Drained Enc.audio da) ∧
    (finish L s).rest = s.rest ∧ (finish L s).ret = 0 := by
  obtain ⟨dv, hdv, hv⟩ := flushDrain_trace Enc.video L.recv_flush_video
    (s.emit (Event.send_frame Enc.video none L.send_flush_video))
  obtain ⟨da, hda, ha⟩ := flushDrain_trace Enc.audio L.recv_flush_audio
    ((flushDrain Enc.video L.recv_flush_video
      (s.emit (Event.send_frame Enc.video none L.send_flush_video))).emit
        (Event.send_frame Enc.audio none L.send_flush_audio))
  refine ⟨⟨dv, da, ?_, hv, ha⟩, ?_, rfl⟩
  · simp only [finish, St.emit] at hda hdv ⊢
    rw [hda, hdv]
    simp
  · have h1 := (flushDrain_rest Enc.audio L.recv_flush_audio
      ((flushDrain Enc.video L.recv_flush_video
        (s.emit (Event.send_frame Enc.video none L.send_flush_video))).emit
          (Event.send_frame Enc.audio none L.send_flush_audio))).1
    have h2 := (flushDrain_rest Enc.video L.recv_flush_video
      (s.emit (Event.send_frame Enc.video none L.send_flush_video))).1
    simp only [finish, St.rest, St.emit] at h1 h2 ⊢
    rw [h1]
    simp only [St.mk.injEq, true_and] at h2 ⊢
    simp [h2]

theorem finish_facts (L : Lib) (s : St) :
    Facts Event.isFinish s (Flow.cleanup (finish L s)) := by
  obtain ⟨⟨dv, da, htr, hv, ha⟩, hrest, _⟩ := finish_trace L s
  refine ⟨rfl, has_of_rest hrest, _, htr, ?_⟩
  intro ev hev
  simp only [List.mem_cons, List.mem_append, List.mem_singleton] at hev
  rcases hev with ((h | h) | h | h) | h | h
  · simp [h, Event.isFinish]
  · exact isFinish_of_isDrain _ _ (hv.isDrain ev h)
  · simp [h, Event.isFinish]
  · exact isFinish_of_isDrain _ _ (ha.isDrain ev h)
  · simp [h, Event.isFinish]
  · simp at h

theorem isEncode_of_isLoop (e : Enc) (ev : Event) (h : Event.isLoop e ev = true) :
    Event.isEncode ev = true := by
  cases e <;> simp [Event.isEncode, h]

theorem isEncode_of_isFinish (ev : Event) (h : Event.isFinish ev = true) :
    Event.isEncode ev = true := by
  simp [Event.isEncode, h]

theorem notRes_of_isEncode (ev : Event) (h : Event.isEncode ev = true) :
    Event.notRes ev = true := by
  cases ev <;> simp_all [Event.isEncode, Event.isLoop, Event.isFinish, Event.notRes, Event.isRes]

theorem encode_facts (L : Lib) (s : St) : Facts Event.isEncode s (encode L s) := by
  unfold encode
  refine Facts.bind ((videoLoop_facts L _ s).mono (isEncode_of_isLoop _)) ?_
  intro s1 _
  refine Facts.bind ((audioLoop_facts L _ s1).mono (isEncode_of_isLoop _)) ?_
  intro s2 _
  exact (finish_facts L s2).mono isEncode_of_isFinish

theorem encode_cleanup (L : Lib) (s : St) : ∃ s', encode L s = Flow.cleanup s' := by
  unfold encode
  have hv := (videoLoop_facts L (total_frames - s.video_frame_count) s).direct
  cases h1 : videoLoop L (total_frames - s.video_frame_count) s with
  | returned v s1 => rw [h1] at hv; simp [Flow.direct] at hv
  | cleanup s1 => exact ⟨s1, rfl⟩
  | next s1 =>
    simp only [Flow.andThen]
    have ha := (audioLoop_facts L total_audio_frames s1).direct
    cases h2 : audioLoop L total_audio_frames s1 with
    | returned v s2 => rw [h2] at ha; simp [Flow.direct] at ha
    | cleanup s2 => exact ⟨s2, rfl⟩
    | next s2 => exact ⟨_, rfl⟩

theorem body_cases (L : Lib) :
    (L.alloc_output_context2 < 0 ∧
      body L = Flow.returned (-1) { St.init L with ret := L.alloc_output_context2 }) ∨
    (0 ≤ L.alloc_output_context2 ∧ ∃ s, body L = Flow.cleanup s ∧ Tracked L s) := by
  rcases setup_cases L with ⟨h, hs⟩ | ⟨h, s0, hinv, hs | ⟨hs, _⟩⟩
  · exact Or.inl ⟨h, by simp [body, hs, Flow.andThen]⟩
  · exact Or.inr ⟨h, s0, by simp [body, hs, Flow.andThen], hinv.tracked⟩
  · obtain ⟨s, he⟩ := encode_cleanup L s0
    refine Or.inr ⟨h, s, by simp [body, hs, Flow.andThen, he], ?_⟩
    have := Tracked.of_facts hinv.tracked ((encode_facts L s0).mono notRes_of_isEncode)
    rw [he] at this
    exact this

theorem run_of_cleanup {L : Lib} {s : St} (h : body L = Flow.cleanup s) :
    (helloworld_av_write L).ret = s.ret ∧ (helloworld_av_write L).exit = ExitKind.cleanup ∧
    (helloworld_av_write L).trace = s.trace ++ releases L s ∧
    (helloworld_av_write L).sent = s.sent := by
  obtain ⟨h1, h2, h3⟩ := cleanup_trace L s
  simp [helloworld_av_write, h, h1, h2, h3]

theorem run_of_returned {L : Lib} {v : Int} {s : St} (h : body L = Flow.returned v s) :
    (helloworld_av_write L).ret = v ∧ (helloworld_av_write L).exit = ExitKind.direct ∧
    (helloworld_av_write L).trace = s.trace ∧ (helloworld_av_write L).sent = s.sent := by
  simp [helloworld_av_write, h]

theorem sentPts_append (e : Enc) (a b : List Event) :
    sentPts e (a ++ b) = sentPts e a ++ sentPts e b := by
  induction a with
  | nil => rfl
  | cons ev a ih =>
    cases ev with
    | send_frame e' p r =>
      cases p with
      | none => simpa [sentPts] using ih
      | some p =>
        by_cases h : e' = e <;> simp [sentPts, h, ih]
    | _ => simpa [sentPts] using ih

theorem sentPts_nil (e : Enc) (d : List Event) (h : ∀ ev ∈ d, Event.isSendOf e ev = false) :
    sentPts e d = [] := by
  induction d with
  | nil => rfl
  | cons ev d ih =>
    have h1 := h ev (by simp)
    have h2 := ih (fun x hx => h x (List.mem_cons_of_mem _ hx))
    cases ev with
    | send_frame e' p r =>
      cases p with
      | none => simpa [sentPts] using h2
      | some p =>
        have : e' ≠ e := by simpa [Event.isSendOf] using h1
        simp [sentPts, this, h2]
    | _ => simpa [sentPts] using h2

theorem drain_ok (L : Lib) (e : Enc) : ∀ (rs : List Int) (s : St),
    (∀ r ∈ rs, NoHardError L r) → ∃ s', drain L e rs s = Flow.next s' := by
  intro rs
  induction rs with
  | nil => intro s _; exact ⟨_, rfl⟩
  | cons r rs ih =>
    intro s h
    simp only [drain]
    split
    · exact ⟨_, rfl⟩
    · rename_i hne
      have hr := h r (by simp)
      split
      · rename_i hneg
        exact absurd (hr hneg) hne
      · exact ih _ (fun x hx => h x (List.mem_cons_of_mem _ hx))

theorem not_isSendOf_of_isDrain (e e' : Enc) (ev : Event) (h : Event.isDrain e' ev = true) :
    Event.isSendOf e ev = false := by
  cases ev <;> simp_all [Event.isDrain, Event.isSendOf]

theorem videoLoop_ok (L : Lib) : ∀ (todo : Nat) (s : St),
    (∀ n, s.video_frame_count ≤ n → n < s.video_frame_count + todo →
      0 ≤ L.send_video n ∧ ∀ r ∈ L.recv_video n, NoHardError L r) →
    ∃ s', videoLoop L todo s = Flow.next s' ∧ ∃ d, s'.trace = s.trace ++ d ∧
      sentPts Enc.video d = (List.range' s.video_frame_count todo).map Int.ofNat := by
  intro todo
  induction todo with
  | zero => intro s _; exact ⟨s, rfl, [], by simp, rfl⟩
  | succ todo ih =>
    intro s h
    obtain ⟨hsend, hrecv⟩ := h s.video_frame_count (le_refl _) (by omega)
    have hret : ¬ (videoSend L s).ret < 0 := by
      show ¬ L.send_video s.video_frame_count < 0
      omega
    simp only [videoLoop, hret, if_false]
    obtain ⟨s1, hs1⟩ := drain_ok L Enc.video (L.recv_video s.video_frame_count) (videoSend L s) hrecv
    obtain ⟨dd, hdd, hall⟩ := drain_trace L Enc.video (L.recv_video s.video_frame_count) (videoSend L s)
    have hrest := drain_rest L Enc.video (L.recv_video s.video_frame_count) (videoSend L s)
    rw [hs1] at hdd hrest
    simp only [Flow.st] at hdd hrest
    have hcnt : s1.video_frame_count = s.video_frame_count := by
      have := congrArg St.video_frame_count hrest
      exact this
    rw [hs1]
    simp only [Flow.andThen]
    obtain ⟨s', hs', d', hd', hpts⟩ := ih { s1 with video_frame_count := s1.video_frame_count + 1 }
      (by
        intro n hn1 hn2
        simp only [hcnt] at hn1 hn2
        exact h n (by omega) (by omega))
    refine ⟨s', hs', Event.send_frame Enc.video (some (s.video_frame_count : Int))
      (L.send_video s.video_frame_count) :: (dd ++ d'), ?_, ?_⟩
    · rw [hd']
      show s1.trace ++ d' = _
      rw [hdd]
      simp [videoSend, St.emit, genVideoFrame]
    · have e1 : sentPts Enc.video dd = [] :=
        sentPts_nil _ _ (fun ev hev => not_isSendOf_of_isDrain _ _ ev (hall ev hev))
      simp only [sentPts, if_true, sentPts_append, e1, List.nil_append, hpts, hcnt]
      simp [List.range'_succ]

theorem videoLoop_next (L : Lib) : ∀ (todo : Nat) (s : St),
    (∀ n, s.video_frame_count ≤ n → n < s.video_frame_count + todo →
      ∀ r ∈ L.recv_video n, NoHardError L r) →
    ∃ s', videoLoop L todo s = Flow.next s' := by
  intro todo
  induction todo with
  | zero => intro s _; exact ⟨s, rfl⟩
  | succ todo ih =>
    intro s h
    simp only [videoLoop]
    split
    · exact ⟨_, rfl⟩
    · obtain ⟨s1, hs1⟩ := drain_ok L Enc.video (L.recv_video s.video_frame_count)
        (videoSend L s) (h s.video_frame_count (le_refl _) (by omega))
      have hrest := drain_rest L Enc.video (L.recv_video s.video_frame_count) (videoSend L s)
      rw [hs1] at hrest
      have hcnt : s1.video_frame_count = s.video_frame_count := by
        have := congrArg St.video_frame_count hrest
        exact this
      rw [hs1]
      simp only [Flow.andThen]
      exact ih _ (by
        intro n hn1 hn2
        simp only [hcnt] at hn1 hn2
        exact h n (by omega) (by omega))

theorem videoLoop_audio_count (L : Lib) : ∀ (todo : Nat) (s : St),
    (videoLoop L todo s).st.audio_frame_count = s.audio_frame_count := by
  intro todo
  induction todo with
  | zero => intro s; rfl
  | succ todo ih =>
    intro s
    simp only [videoLoop]
    split
    · rfl
    · have hrest := drain_rest L Enc.video (L.recv_video s.video_frame_count) (videoSend L s)
      have hcnt : (drain L Enc.video (L.recv_video s.video_frame_count)
          (videoSend L s)).st.audio_frame_count = s.audio_frame_count := by
        have := congrArg St.audio_frame_count hrest
        exact this
      cases hd : drain L Enc.video (L.recv_video s.video_frame_count) (videoSend L s) with
      | next s1 =>
        rw [hd] at hcnt
        simp only [Flow.andThen]
        rw [ih]
        exact hcnt
      | cleanup s1 => rw [hd] at hcnt; exact hcnt
      | returned v s1 => rw [hd] at hcnt; exact hcnt

theorem audioLoop_ok (L : Lib) : ∀ (todo : Nat) (s : St),
    (∀ n, s.audio_frame_count ≤ n → n < s.audio_frame_count + todo →
      0 ≤ L.send_audio n ∧ ∀ r ∈ L.recv_audio n, NoHardError L r) →
    ∃ s', audioLoop L todo s = Flow.next s' ∧ ∃ d, s'.trace = s.trace ++ d ∧
      sentPts Enc.audio d = (List.range' s.audio_frame_count todo).map
        (fun i => ((i * audio_samples_per_frame : Nat) : Int)) := by
  intro todo
  induction todo with
  | zero => intro s _; exact ⟨s, rfl, [], by simp, rfl⟩
  | succ todo ih =>
    intro s h
    obtain ⟨hsend, hrecv⟩ := h s.audio_frame_count (le_refl _) (by omega)
    have hret : ¬ (audioSend L s).ret < 0 := by
      show ¬ L.send_audio s.audio_frame_count < 0
      omega
    simp only [audioLoop, hret, if_false]
    obtain ⟨s1, hs1⟩ := drain_ok L Enc.audio (L.recv_audio s.audio_frame_count) (audioSend L s) hrecv
    obtain ⟨dd, hdd, hall⟩ := drain_trace L Enc.audio (L.recv_audio s.audio_frame_count) (audioSend L s)
    have hrest := drain_rest L Enc.audio (L.recv_audio s.audio_frame_count) (audioSend L s)
    rw [hs1] at hdd hrest
    simp only [Flow.st] at hdd hrest
    have hcnt : s1.audio_frame_count = s.audio_frame_count := by
      have := congrArg St.audio_frame_count hrest
      exact this
    rw [hs1]
    simp only [Flow.andThen]
    obtain ⟨s', hs', d', hd', hpts⟩ := ih { s1 with audio_frame_count := s1.audio_frame_count + 1 }
      (by
        intro n hn1 hn2
        simp only [hcnt] at hn1 hn2
        exact h n (by omega) (by omega))
    refine ⟨s', hs', Event.send_frame Enc.audio
      (some ((s.audio_frame_count * audio_samples_per_frame : Nat) : Int))
      (L.send_audio s.audio_frame_count) :: (dd ++ d'), ?_, ?_⟩
    · rw [hd']
      show s1.trace ++ d' = _
      rw [hdd]
      simp [audioSend, St.emit]
    · have e1 : sentPts Enc.audio dd = [] :=
        sentPts_nil _ _ (fun ev hev => not_isSendOf_of_isDrain _ _ ev (hall ev hev))
      simp only [sentPts, if_true, sentPts_append, e1, List.nil_append, hpts, hcnt]
      simp [List.range'_succ]

theorem setup_next_of_ok (L : Lib) (h : SetupOk L) :
    ∃ s0 pre hd, setup L = Flow.next s0 ∧ SetupInv L s0 ∧ 0 ≤ hd ∧
      s0.trace = pre ++ [Event.write_header hd, Event.acquire Res.video_frame,
        Event.acquire Res.audio_frame] := by
  obtain ⟨h1, h2, h3, h4, h5, h6, h7, h8, h9⟩ := h
  have hnext : ∃ s0, setup L = Flow.next s0 := by
    by_cases hn : L.nofile = false
    · have h8' := h8 hn
      exact ⟨_, by simp [setup, allocContext, findEncoders, openVideo, openAudio, openFile,
        writeHeader, allocFrames, Flow.andThen, St.emit, not_lt.mpr h1, h2, h3, h4,
        not_lt.mpr h5, h6, not_lt.mpr h7, hn, not_lt.mpr h8', not_lt.mpr h9]; rfl⟩
    · exact ⟨_, by simp [setup, allocContext, findEncoders, openVideo, openAudio, openFile,
        writeHeader, allocFrames, Flow.andThen, St.emit, not_lt.mpr h1, h2, h3, h4,
        not_lt.mpr h5, h6, not_lt.mpr h7, hn, not_lt.mpr h9]; rfl⟩
  obtain ⟨s0, hs0⟩ := hnext
  rcases setup_cases L with ⟨_, hs⟩ | ⟨_, s, hinv, hs | ⟨hs, pre, hd, hhd, htr⟩⟩
  · rw [hs0] at hs; cases hs
  · rw [hs0] at hs; cases hs
  · have e : s0 = s := by
      rw [hs0] at hs
      injection hs
    subst e
    exact ⟨s0, pre, hd, hs0, hinv, hhd, htr⟩

theorem releases_isRes (L : Lib) (s : St) : ∀ ev ∈ releases L s, ∃ r, ev = Event.release r := by
  intro ev hev
  unfold releases at hev
  simp only [List.mem_append] at hev
  rcases hev with ((((h | h) | h) | h) | h) | h <;> split_ifs at h <;> simp at h <;>
    exact ⟨_, h⟩

theorem not_isSendOf_of_isSetup (e : Enc) (ev : Event) (h : Event.isSetup ev = true) :
    Event.isSendOf e ev = false := by
  cases ev <;> simp_all [Event.isSetup, Event.isSendOf]

theorem not_isSendOf_of_isFinish (e : Enc) (ev : Event) (h : Event.isFinish ev = true) :
    Event.isSendOf e ev = false := by
  cases ev with
  | send_frame e' p r => cases p <;> simp_all [Event.isFinish, Event.isSendOf]
  | _ => simp_all [Event.isFinish, Event.isSendOf]

theorem not_isSendOf_of_isLoop (e e' : Enc) (hne : e' ≠ e) (ev : Event)
    (h : Event.isLoop e' ev = true) : Event.isSendOf e ev = false := by
  cases ev with
  | send_frame e'' p r =>
    cases p with
    | none => simp [Event.isSendOf]
    | some p =>
      simp only [Event.isLoop, decide_eq_true_eq] at h
      simp only [Event.isSendOf, decide_eq_false_iff_not]
      rw [h]; exact hne
  | _ => simp [Event.isSendOf]

theorem sentPts_releases (L : Lib) (s : St) (e : Enc) : sentPts e (releases L s) = [] := by
  apply sentPts_nil
  intro ev hev
  obtain ⟨r, hr⟩ := releases_isRes L s ev hev
  simp [hr, Event.isSendOf]

theorem sentPts_setup (L : Lib) (s : St) (h : SetupInv L s) (e : Enc) : sentPts e s.trace = [] :=
  sentPts_nil _ _ (fun ev hev => not_isSendOf_of_isSetup e ev (h.quiet ev hev))

/-- The part of `encode` after the video loop. -/
theorem encode_after_video (L : Lib) (s s1 : St)
    (h : videoLoop L (total_frames - s.video_frame_count) s = Flow.next s1) :
    encode L s = (audioLoop L total_audio_frames s1).andThen
      fun s => Flow.cleanup (finish L s) := by
  simp [encode, h, Flow.andThen]

theorem encode_after_audio (L : Lib) (s s1 s2 : St)
    (h : videoLoop L (total_frames - s.video_frame_count) s = Flow.next s1)
    (h2 : audioLoop L total_audio_frames s1 = Flow.next s2) :
    encode L s = Flow.cleanup (finish L s2) := by
  simp [encode, h, h2, Flow.andThen]

theorem tail_facts (L : Lib) (n : Nat) (s1 : St) :
    Facts (fun ev => Event.isLoop Enc.audio ev || Event.isFinish ev) s1
      ((audioLoop L n s1).andThen fun s => Flow.cleanup (finish L s)) := by
  refine Facts.bind ((audioLoop_facts L n s1).mono (fun ev h => by simp [h])) ?_
  intro s2 _
  exact (finish_facts L s2).mono (fun ev h => by simp [h])

theorem prefix_of_not_mem {α : Type} (l1 l2 pre post : List α) (x : α)
    (h : l1 ++ l2 = pre ++ x :: post) (hx : x ∉ l1) : ∃ m, pre = l1 ++ m := by
  rcases List.append_eq_append_iff.mp h with ⟨a, ha, _⟩ | ⟨c, hc, hc2⟩
  · exact ⟨a, ha⟩
  · cases c with
    | nil => exact ⟨[], by simpa using hc.symm⟩
    | cons y c =>
      simp only [List.cons_append, List.cons.injEq] at hc2
      exact absurd (by rw [hc, hc2.1]; simp) hx

theorem eq_of_unique_mem {α : Type} (a b pre post : List α) (x : α)
    (h : a ++ x :: b = pre ++ x :: post) (ha : x ∉ a) (hb : x ∉ b) : pre = a := by
  rcases List.append_eq_append_iff.mp h with ⟨m, hm, hm2⟩ | ⟨c, hc, hc2⟩
  · cases m with
    | nil => simpa using hm
    | cons y m =>
      simp only [List.cons_append, List.cons.injEq] at hm2
      exact absurd (by rw [hm2.2]; simp) hb
  · cases c with
    | nil => simpa using hc.symm
    | cons y c =>
      simp only [List.cons_append, List.cons.injEq] at hc2
      exact absurd (by rw [hc, hc2.1]; simp) ha

theorem run_shape (L : Lib) :
    (helloworld_av_write L).trace = [] ∨
    (∃ s0, SetupInv L s0 ∧ (helloworld_av_write L).trace = s0.trace ++ releases L s0) ∨
    (∃ s0 s pre h d, SetupInv L s0 ∧ 0 ≤ h ∧
      s0.trace = pre ++ [Event.write_header h, Event.acquire Res.video_frame,
        Event.acquire Res.audio_frame] ∧
      (∀ ev ∈ d, (Event.isLoop Enc.video ev || Event.isLoop Enc.audio ev) = true) ∧
      ((helloworld_av_write L).trace = s0.trace ++ d ++ releases L s ∨
        ∃ dv da, Drained Enc.video dv ∧ Drained Enc.audio da ∧
          (helloworld_av_write L).trace = s0.trace ++ d ++
            (Event.send_frame Enc.video none L.send_flush_video :: dv ++
              Event.send_frame Enc.audio none L.send_flush_audio :: da ++
              [Event.write_trailer]) ++ releases L s)) := by
  rcases setup_cases L with ⟨h, hs⟩ | ⟨h, s0, hinv, hs | ⟨hs, pre, hd, hhd, htr⟩⟩
  · left
    have hb : body L = Flow.returned (-1) { St.init L with ret := L.alloc_output_context2 } := by
      simp [body, hs, Flow.andThen]
    exact (run_of_returned hb).2.2.1
  · right; left
    have hb : body L = Flow.cleanup s0 := by simp [body, hs, Flow.andThen]
    exact ⟨s0, hinv, (run_of_cleanup hb).2.2.1⟩
  · right; right
    have hbody : body L = encode L s0 := by simp [body, hs, Flow.andThen]
    have hvf := videoLoop_facts L (total_frames - s0.video_frame_count) s0
    cases h1 : videoLoop L (total_frames - s0.video_frame_count) s0 with
    | returned v s1 => rw [h1] at hvf; exact absurd hvf.direct (by simp [Flow.direct])
    | cleanup s1 =>
      rw [h1] at hvf
      obtain ⟨dv, hdv, hallv⟩ := hvf.trace
      simp only [Flow.st] at hdv
      have hb : body L = Flow.cleanup s1 := by rw [hbody]; simp [encode, h1, Flow.andThen]
      refine ⟨s0, s1, pre, hd, dv, hinv, hhd, htr, fun ev hev => by simp [hallv ev hev], Or.inl ?_⟩
      rw [(run_of_cleanup hb).2.2.1, hdv]
    | next s1 =>
      rw [h1] at hvf
      obtain ⟨dv, hdv, hallv⟩ := hvf.trace
      simp only [Flow.st] at hdv
      have haf := audioLoop_facts L total_audio_frames s1
      cases h2 : audioLoop L total_audio_frames s1 with
      | returned v s2 => rw [h2] at haf; exact absurd haf.direct (by simp [Flow.direct])
      | cleanup s2 =>
        rw [h2] at haf
        obtain ⟨da, hda, halla⟩ := haf.trace
        simp only [Flow.st] at hda
        have hb : body L = Flow.cleanup s2 := by
          rw [hbody]; simp [encode, h1, h2, Flow.andThen]
        refine ⟨s0, s2, pre, hd, dv ++ da, hinv, hhd, htr, ?_, Or.inl ?_⟩
        · intro ev hev
          rcases List.mem_append.mp hev with h | h
          · simp [hallv ev h]
          · simp [halla ev h]
        · rw [(run_of_cleanup hb).2.2.1, hda, hdv]; simp
      | next s2 =>
        rw [h2] at haf
        obtain ⟨da, hda, halla⟩ := haf.trace
        simp only [Flow.st] at hda
        have hb : body L = Flow.cleanup (finish L s2) := by
          rw [hbody]; exact encode_after_audio L s0 s1 s2 h1 h2
        obtain ⟨⟨fv, fa, hf, hfv, hfa⟩, _, _⟩ := finish_trace L s2
        refine ⟨s0, finish L s2, pre, hd, dv ++ da, hinv, hhd, htr, ?_, Or.inr ⟨fv, fa, hfv, hfa, ?_⟩⟩
        · intro ev hev
          rcases List.mem_append.mp hev with h | h
          · simp [hallv ev h]
          · simp [halla ev h]
        · rw [(run_of_cleanup hb).2.2.1, hf, hda, hdv]; simp

theorem and_0xFF (v : Nat) : v &&& 0xFF = v % 256 := by
  have := Nat.and_pow_two_sub_one_eq_mod v 8
  simpa using this

theorem rowFold_miss (ls y : Nat) (v : Nat → Nat) (k : Nat) : ∀ (w : Nat) (m : Nat → Nat),
    (∀ x, x < w → k ≠ y * ls + x) →
    ((List.range w).foldl (fun m x => store m (y * ls + x) (v x)) m) k = m k := by
  intro w
  induction w with
  | zero => intro m _; rfl
  | succ w ih =>
    intro m h
    rw [List.range_succ, List.foldl_append]
    simp only [List.foldl_cons, List.foldl_nil, store]
    rw [if_neg (h w (by omega))]
    exact ih m (fun x hx => h x (by omega))

theorem rowFold_hit (ls y : Nat) (v : Nat → Nat) (x0 : Nat) : ∀ (w : Nat) (m : Nat → Nat),
    x0 < w →
    ((List.range w).foldl (fun m x => store m (y * ls + x) (v x)) m) (y * ls + x0) = v x0 := by
  intro w
  induction w with
  | zero => intro m h; omega
  | succ w ih =>
    intro m h
    rw [List.range_succ, List.foldl_append]
    simp only [List.foldl_cons, List.foldl_nil, store]
    by_cases hx : x0 = w
    · simp [hx]
    · rw [if_neg (by omega)]
      exact ih m (by omega)

theorem fill_hit (w ls : Nat) (v : Nat → Nat → Nat) (hw : w ≤ ls) (x0 y0 : Nat) (hx : x0 < w) :
    ∀ (h : Nat) (m : Nat → Nat), y0 < h →
    ((List.range h).foldl (fun m y =>
      (List.range w).foldl (fun m x => store m (y * ls + x) (v x y)) m) m) (y0 * ls + x0)
      = v x0 y0 := by
  intro h
  induction h with
  | zero => intro m hy; omega
  | succ h ih =>
    intro m hy
    rw [List.range_succ, List.foldl_append]
    simp only [List.foldl_cons, List.foldl_nil]
    by_cases hy0 : y0 = h
    · subst hy0
      exact rowFold_hit ls y0 (fun x => v x y0) x0 w _ hx
    · have hlt : y0 < h := by omega
      rw [rowFold_miss ls h (fun x => v x h) (y0 * ls + x0) w _ ?_]
      · exact ih m hlt
      · intro x _
        have h1 : (y0 + 1) * ls ≤ h * ls := Nat.mul_le_mul_right ls (by omega)
        have h2 : (y0 + 1) * ls = y0 * ls + ls := by ring
        omega

theorem fillLuma_spec (ls n : Nat) (m : Nat → Nat) (hw : width ≤ ls) (x y : Nat)
    (hx : x < width) (hy : y < height) :
    fillLuma ls n m (y * ls + x) = (x + y + n) % 256 := by
  unfold fillLuma
  rw [fill_hit width ls (fun x y => (x + y + n) &&& 0xFF) hw x y hx height m hy]
  exact and_0xFF _

theorem fillChroma_spec (ls : Nat) (m : Nat → Nat) (hw : width / 2 ≤ ls) (x y : Nat)
    (hx : x < width / 2) (hy : y < height / 2) :
    fillChroma ls m (y * ls + x) = 128 := by
  unfold fillChroma
  exact fill_hit (width / 2) ls (fun _ _ => 128) hw x y hx (height / 2) m hy

theorem SentInv.same {L : Lib} {s s' : St} (h : SentInv L s) (hf : s'.frame = s.frame)
    (hs : s'.sent = s.sent)
    (ht : ∃ d, s'.trace = s.trace ++ d ∧ ∀ ev ∈ d, Event.isSendOf Enc.video ev = false) :
    SentInv L s' := by
  obtain ⟨d, hd, hall⟩ := ht
  refine ⟨by rw [hf]; exact h.ls, by rw [hs]; exact h.ok, ?_⟩
  rw [hs, hd, sentPts_append, sentPts_nil _ d hall, List.append_nil]
  exact h.link

theorem drain_sent (L : Lib) (e : Enc) (rs : List Int) (s : St) (h : SentInv L s) :
    SentInv L (drain L e rs s).st := by
  have hrest := drain_rest L e rs s
  obtain ⟨d, hd, hall⟩ := drain_trace L e rs s
  refine h.same ?_ ?_ ⟨d, hd, fun ev hev => not_isSendOf_of_isDrain _ _ ev (hall ev hev)⟩
  · have := congrArg St.frame hrest
    exact this
  · have := congrArg St.sent hrest
    exact this

theorem genVideoFrame_ok (L : Lib) (f : VideoFrame) (n : Nat) (hn : n < total_frames)
    (h0 : width ≤ L.frame0.linesize0) (h1 : width / 2 ≤ L.frame0.linesize1)
    (h2 : width / 2 ≤ L.frame0.linesize2)
    (hls : f.linesize0 = L.frame0.linesize0 ∧ f.linesize1 = L.frame0.linesize1 ∧
      f.linesize2 = L.frame0.linesize2) : FrameOk (genVideoFrame f n) := by
  refine ⟨n, hn, rfl, ?_, ?_⟩
  · intro x y hx hy
    have e := fillLuma_spec f.linesize0 n f.data0 (by rw [hls.1]; exact h0) x y hx hy
    simp only [genVideoFrame]
    exact e
  · intro x y hx hy
    have e1 := fillChroma_spec f.linesize1 f.data1 (by rw [hls.2.1]; exact h1) x y hx hy
    have e2 := fillChroma_spec f.linesize2 f.data2 (by rw [hls.2.2]; exact h2) x y hx hy
    simp only [genVideoFrame]
    exact ⟨e1, e2⟩

theorem videoLoop_sent (L : Lib) (h0 : width ≤ L.frame0.linesize0)
    (h1 : width / 2 ≤ L.frame0.linesize1) (h2 : width / 2 ≤ L.frame0.linesize2) :
    ∀ (todo : Nat) (s : St), s.video_frame_count + todo ≤ total_frames → SentInv L s →
      SentInv L (videoLoop L todo s).st := by
  intro todo
  induction todo with
  | zero => intro s _ h; exact h
  | succ todo ih =>
    intro s hb h
    have hsend : SentInv L (videoSend L s) := by
      refine ⟨h.ls, ?_, ?_⟩
      · intro f hf
        simp only [videoSend, St.emit, List.mem_append, List.mem_singleton] at hf
        rcases hf with hf | hf
        · exact h.ok f hf
        · rw [hf]
          exact genVideoFrame_ok L s.frame s.video_frame_count (by omega) h0 h1 h2 h.ls
      · simp only [videoSend, St.emit, List.map_append, sentPts_append, h.link]
        simp [sentPts]
    simp only [videoLoop]
    split
    · exact hsend
    · have hd := drain_sent L Enc.video (L.recv_video s.video_frame_count) (videoSend L s) hsend
      have hrest := drain_rest L Enc.video (L.recv_video s.video_frame_count) (videoSend L s)
      have hcnt : (drain L Enc.video (L.recv_video s.video_frame_count)
          (videoSend L s)).st.video_frame_count = s.video_frame_count := by
        have := congrArg St.video_frame_count hrest
        exact this
      cases hdr : drain L Enc.video (L.recv_video s.video_frame_count) (videoSend L s) with
      | next s1 =>
        rw [hdr] at hd hcnt
        simp only [Flow.st] at hd hcnt
        simp only [Flow.andThen]
        exact ih _ (by simp only [hcnt]; omega) ⟨hd.ls, hd.ok, hd.link⟩
      | cleanup s1 => rw [hdr] at hd; exact hd
      | returned v s1 => rw [hdr] at hd; exact hd

theorem audioLoop_same (L : Lib) : ∀ (todo : Nat) (s : St),
    (audioLoop L todo s).st.frame = s.frame ∧ (audioLoop L todo s).st.sent = s.sent := by
  intro todo
  induction todo with
  | zero => intro s; exact ⟨rfl, rfl⟩
  | succ todo ih =>
    intro s
    simp only [audioLoop]
    split
    · exact ⟨rfl, rfl⟩
    · have hrest := drain_rest L Enc.audio (L.recv_audio s.audio_frame_count) (audioSend L s)
      have hf : (drain L Enc.audio (L.recv_audio s.audio_frame_count)
          (audioSend L s)).st.frame = s.frame := by
        have := congrArg St.frame hrest
        exact this
      have hs : (drain L Enc.audio (L.recv_audio s.audio_frame_count)
          (audioSend L s)).st.sent = s.sent := by
        have := congrArg St.sent hrest
        exact this
      cases hdr : drain L Enc.audio (L.recv_audio s.audio_frame_count) (audioSend L s) with
      | next s1 =>
        rw [hdr] at hf hs
        simp only [Flow.st] at hf hs
        simp only [Flow.andThen]
        obtain ⟨i1, i2⟩ := ih { s1 with audio_frame_count := s1.audio_frame_count + 1 }
        exact ⟨i1.trans hf, i2.trans hs⟩
      | cleanup s1 => rw [hdr] at hf hs; exact ⟨hf, hs⟩
      | returned v s1 => rw [hdr] at hf hs; exact ⟨hf, hs⟩

theorem encode_sent (L : Lib) (h0 : width ≤ L.frame0.linesize0)
    (h1 : width / 2 ≤ L.frame0.linesize1) (h2 : width / 2 ≤ L.frame0.linesize2) (s : St)
    (hc : s.video_frame_count = 0) (h : SentInv L s) : SentInv L (encode L s).st := by
  have hv := videoLoop_sent L h0 h1 h2 (total_frames - s.video_frame_count) s (by omega) h
  unfold encode
  cases h1 : videoLoop L (total_frames - s.video_frame_count) s with
  | returned v s1 => rw [h1] at hv; exact hv
  | cleanup s1 => rw [h1] at hv; exact hv
  | next s1 =>
    rw [h1] at hv
    simp only [Flow.st] at hv
    simp only [Flow.andThen]
    have ha := audioLoop_same L total_audio_frames s1
    obtain ⟨da, hda, halla⟩ := (audioLoop_facts L total_audio_frames s1).trace
    have hva : SentInv L (audioLoop L total_audio_frames s1).st :=
      hv.same ha.1 ha.2 ⟨da, hda, fun ev hev =>
        not_isSendOf_of_isLoop _ _ (by decide) ev (halla ev hev)⟩
    cases h2 : audioLoop L total_audio_frames s1 with
    | returned v s2 => rw [h2] at hva; exact hva
    | cleanup s2 => rw [h2] at hva; exact hva
    | next s2 =>
      rw [h2] at hva
      simp only [Flow.st] at hva ⊢
      obtain ⟨df, hdf, hallf⟩ := (finish_facts L s2).trace
      have hrest := (finish_trace L s2).2.1
      refine hva.same ?_ ?_ ⟨df, hdf, fun ev hev => not_isSendOf_of_isFinish _ ev (hallf ev hev)⟩
      · have := congrArg St.frame hrest
        exact this
      · have := congrArg St.sent hrest
        exact this

theorem video_sends_of_ok (L : Lib) (h : SetupOk L)
    (hv : ∀ n, n < total_frames →
      0 ≤ L.send_video n ∧ ∀ r ∈ L.recv_video n, NoHardError L r) :
    sentPts Enc.video (helloworld_av_write L).trace = (List.range total_frames).map Int.ofNat := by
  obtain ⟨s0, pre, hd, hs0, hinv, _, _⟩ := setup_next_of_ok L h
  have hc := hinv.counts.1
  obtain ⟨s1, hs1, dv, hdv, hpts⟩ := videoLoop_ok L total_frames s0
    (fun n _ hn => hv n (by omega))
  have hs1' : videoLoop L (total_frames - s0.video_frame_count) s0 = Flow.next s1 := by
    rw [hc]; exact hs1
  obtain ⟨s2, he⟩ := encode_cleanup L s0
  have htail := tail_facts L total_audio_frames s1
  rw [← encode_after_video L s0 s1 hs1', he] at htail
  obtain ⟨dt, hdt, hall⟩ := htail.trace
  simp only [Flow.st] at hdt
  have hb : body L = Flow.cleanup s2 := by simp [body, hs0, Flow.andThen, he]
  obtain ⟨_, _, htr, _⟩ := run_of_cleanup hb
  have e1 : sentPts Enc.video dt = [] := by
    apply sentPts_nil
    intro ev hev
    have := hall ev hev
    simp only [Bool.or_eq_true] at this
    rcases this with h | h
    · exact not_isSendOf_of_isLoop _ _ (by decide) ev h
    · exact not_isSendOf_of_isFinish _ ev h
  rw [htr, hdt, hdv, sentPts_append, sentPts_append, sentPts_append, sentPts_setup L s0 hinv,
    sentPts_releases, e1, hpts, hc]
  simp [List.range_eq_range']

theorem audio_sends_of_ok (L : Lib) (h : SetupOk L)
    (hv : ∀ n, n < total_frames → ∀ r ∈ L.recv_video n, NoHardError L r)
    (ha : ∀ i, i < total_audio_frames →
      0 ≤ L.send_audio i ∧ ∀ r ∈ L.recv_audio i, NoHardError L r) :
    sentPts Enc.audio (helloworld_av_write L).trace
      = (List.range total_audio_frames).map
          (fun i => ((i * audio_samples_per_frame : Nat) : Int)) := by
  obtain ⟨s0, pre, hd, hs0, hinv, _, _⟩ := setup_next_of_ok L h
  have hc := hinv.counts.1
  obtain ⟨s1, hs1⟩ := videoLoop_next L (total_frames - s0.video_frame_count) s0
    (fun n _ hn => hv n (by omega))
  have hvf := videoLoop_facts L (total_frames - s0.video_frame_count) s0
  have hac := videoLoop_audio_count L (total_frames - s0.video_frame_count) s0
  rw [hs1] at hvf hac
  simp only [Flow.st] at hac
  rw [hinv.counts.2] at hac
  obtain ⟨dv, hdv, hallv⟩ := hvf.trace
  simp only [Flow.st] at hdv
  obtain ⟨s2, hs2, da, hda, hpts⟩ := audioLoop_ok L total_audio_frames s1
    (fun n _ hn => ha n (by omega))
  have he := encode_after_audio L s0 s1 s2 hs1 hs2
  have hb : body L = Flow.cleanup (finish L s2) := by simp [body, hs0, Flow.andThen, he]
  obtain ⟨_, _, htr, _⟩ := run_of_cleanup hb
  obtain ⟨df, hdf, hallf⟩ := (finish_facts L s2).trace
  simp only [Flow.st] at hdf
  have e1 : sentPts Enc.audio dv = [] :=
    sentPts_nil _ _ (fun ev hev => not_isSendOf_of_isLoop _ _ (by decide) ev (hallv ev hev))
  have e2 : sentPts Enc.audio df = [] :=
    sentPts_nil _ _ (fun ev hev => not_isSendOf_of_isFinish _ ev (hallf ev hev))
  rw [htr, hdf, hda, hdv, sentPts_append, sentPts_append, sentPts_append, sentPts_append,
    sentPts_setup L s0 hinv, sentPts_releases, e1, e2, hpts, hac]
  simp [List.range_eq_range']

theorem sent_frames_ok (L : Lib) (h0 : 320 ≤ L.frame0.linesize0)
    (h1 : 160 ≤ L.frame0.linesize1) (h2 : 160 ≤ L.frame0.linesize2) :
    (∀ f ∈ (helloworld_av_write L).sent, ∃ n : Nat, n < 60 ∧ f.pts = (n : Int) ∧
      (∀ x y, x < 320 → y < 240 → f.data0 (y * f.linesize0 + x) = (x + y + n) % 256) ∧
      (∀ x y, x < 160 → y < 120 →
        f.data1 (y * f.linesize1 + x) = 128 ∧ f.data2 (y * f.linesize2 + x) = 128)) ∧
    (helloworld_av_write L).sent.map VideoFrame.pts
      = sentPts Enc.video (helloworld_av_write L).trace := by
  have key : ∀ s, body L = Flow.cleanup s → SentInv L s →
      (∀ f ∈ (helloworld_av_write L).sent, FrameOk f) ∧
      (helloworld_av_write L).sent.map VideoFrame.pts
        = sentPts Enc.video (helloworld_av_write L).trace := by
    intro s hb hinv
    obtain ⟨_, _, htr, hsent⟩ := run_of_cleanup hb
    rw [hsent, htr, sentPts_append, sentPts_releases, List.append_nil]
    exact ⟨hinv.ok, hinv.link⟩
  have init_inv : ∀ s0, SetupInv L s0 → SentInv L s0 := by
    intro s0 hinv
    refine ⟨by rw [hinv.media.1]; exact ⟨rfl, rfl, rfl⟩, by rw [hinv.media.2]; simp, ?_⟩
    rw [hinv.media.2, sentPts_setup L s0 hinv]
    rfl
  have main : (∀ f ∈ (helloworld_av_write L).sent, FrameOk f) ∧
      (helloworld_av_write L).sent.map VideoFrame.pts
        = sentPts Enc.video (helloworld_av_write L).trace := by
    rcases setup_cases L with ⟨_, hs⟩ | ⟨_, s0, hinv, hs | ⟨hs, _⟩⟩
    · have hb : body L = Flow.returned (-1) { St.init L with ret := L.alloc_output_context2 } := by
        simp [body, hs, Flow.andThen]
      obtain ⟨_, _, htr, hsent⟩ := run_of_returned hb
      rw [hsent, htr]
      simp [St.init, sentPts]
    · exact key s0 (by simp [body, hs, Flow.andThen]) (init_inv s0 hinv)
    · obtain ⟨s, he⟩ := encode_cleanup L s0
      have := encode_sent L h0 h1 h2 s0 hinv.counts.1 (init_inv s0 hinv)
      rw [he] at this
      exact key s (by simp [body, hs, Flow.andThen, he]) this
  exact ⟨main.1, main.2⟩

theorem FlowU.andThen_go (f : Flow) (k : St → Flow) :
    (FlowU.go f).andThen (fun s => FlowU.go (k s)) = FlowU.go (f.andThen k) := by
  cases f <;> rfl

theorem openVideoU_eq (U : Unchecked) (L : Lib) (h : U.alloc_context3_video = true) :
    openVideoU U L = fun s => FlowU.go (openVideo L s) := by
  funext s
  simp only [openVideoU, openVideo, h]
  split_ifs <;> simp_all

theorem openAudioU_eq (U : Unchecked) (L : Lib) (h : U.alloc_context3_audio = true) :
    openAudioU U L = fun s => FlowU.go (openAudio L s) := by
  funext s
  simp only [openAudioU, openAudio, h]
  split_ifs <;> simp_all

theorem allocFramesU_eq (U : Unchecked) (h1 : U.frame_alloc_video = true)
    (h2 : U.frame_alloc_audio = true) :
    allocFramesU U = fun s => FlowU.go (allocFrames s) := by
  funext s
  simp [allocFramesU, allocFrames, h1, h2]

theorem setupU_eq (U : Unchecked) (L : Lib) (h : U.allSucceed) :
    setupU U L = FlowU.go (setup L) := by
  obtain ⟨h1, h2, h3, _, h5, _⟩ := h
  unfold setupU setup
  rw [openVideoU_eq U L h1, openAudioU_eq U L h2, allocFramesU_eq U h3 h5]
  simp only [FlowU.andThen_go]

theorem encodeU_eq (U : Unchecked) (L : Lib) (h : U.allSucceed) :
    encodeU U L = fun s => FlowU.go (encode L s) := by
  obtain ⟨_, _, _, h4, _, h6⟩ := h
  funext s
  simp only [encodeU, encode, h4, h6]
  simp only [Bool.true_eq_false, false_and, if_false]
  exact FlowU.andThen_go _ _

theorem leave_body (L : Lib) : leave L (body L) = helloworld_av_write L := by
  unfold leave helloworld_av_write
  cases body L <;> rfl

theorem unchecked_eq (U : Unchecked) (L : Lib) (h : U.allSucceed) :
    helloworld_av_write_unchecked U L = Outcome.finished (helloworld_av_write L) := by
  unfold helloworld_av_write_unchecked
  rw [setupU_eq U L h, encodeU_eq U L h, FlowU.andThen_go]
  show Outcome.finished (leave L (body L)) = _
  rw [leave_body]

theorem unchecked_allocation_failure_is_undefined :
    helloworld_av_write_unchecked { allocOk with alloc_context3_audio := false } okLib
      = Outcome.undefined [Event.acquire Res.oc, Event.acquire Res.video_codec_ctx] := by
  rfl

theorem release_accounting (L : Lib) :
    ((helloworld_av_write L).exit = ExitKind.cleanup ↔ 0 ≤ L.alloc_output_context2) ∧
    ((helloworld_av_write L).exit = ExitKind.direct ↔
      ((helloworld_av_write L).ret = -1 ∧ (helloworld_av_write L).trace = [] ∧
        L.alloc_output_context2 < 0)) ∧
    (∀ r : Res,
      (helloworld_av_write L).trace.count (Event.acquire r)
        = (helloworld_av_write L).trace.count (Event.release r) ∧
      (helloworld_av_write L).trace.count (Event.release r) ≤ 1) ∧
    (∃ pre rel, (helloworld_av_write L).trace = pre ++ rel ∧
      (∀ r, Event.release r ∉ pre) ∧ (∀ r, Event.acquire r ∉ rel)) := by
  rcases body_cases L with ⟨h, hb⟩ | ⟨h, s, hb, ht⟩
  · obtain ⟨h1, h2, h3, _⟩ := run_of_returned hb
    simp only [St.init] at h3
    refine ⟨?_, ?_, ?_, [], [], ?_, ?_, ?_⟩
    · rw [h2]; simp; omega
    · rw [h2, h1, h3]; simp [h]
    · intro r; rw [h3]; simp
    · rw [h3]; rfl
    · simp
    · simp
  · obtain ⟨h1, h2, h3, _⟩ := run_of_cleanup hb
    obtain ⟨ha, hr, hp⟩ := ht
    refine ⟨?_, ?_, ?_, s.trace, releases L s, h3, ?_, ?_⟩
    · rw [h2]; simp [h]
    · rw [h2]; simp; intro _ _; omega
    · intro r
      obtain ⟨c1, c2⟩ := count_releases L s hp r
      rw [h3, List.count_append, List.count_append, ha r, hr r, c1, c2]
      split_ifs <;> simp
    · intro r hmem
      have := List.count_pos_iff.mpr hmem
      rw [hr r] at this
      exact absurd this (by simp)
    · intro r hmem
      have := List.count_pos_iff.mpr hmem
      rw [(count_releases L s hp r).2] at this
      exact absurd this (by simp)

/-! ## The properties of `ffmpeg_execute` -/

/-- C4: for a command made of one or more non-empty tokens without space (and without NUL),
joined by single spaces, `ffmpeg_execute` calls `ffmpeg_main` with `argc` the number of tokens
plus one and with `argv` the program name `ffmpeg` followed by the tokens in order and a
`NULL` entry at `argv[argc]`, and returns what `ffmpeg_main` returns. -/
theorem ffmpeg_execute_argv (ffmpeg_main : Nat → List Slot → Int) (tokens : List (List Char))
    (hne : tokens ≠ []) (hgood : ∀ t ∈ tokens, GoodToken t) :
    ffmpeg_execute ffmpeg_main true (some (List.intercalate [SP] tokens))
      = { status := ffmpeg_main (tokens.length + 1)
            (Slot.str progName :: tokens.map Slot.str ++ [Slot.null]),
          call := some (tokens.length + 1,
            Slot.str progName :: tokens.map Slot.str ++ [Slot.null]) }
    ∧ (Slot.str progName :: tokens.map Slot.str ++ [Slot.null])[tokens.length + 1]?
        = some Slot.null := by
  have hargc : countArgs (joinSp tokens) 2 = tokens.length + 1 := by
    rw [countArgs_joinSp tokens 2 hgood]
    have : 0 < tokens.length := List.length_pos.mpr hne
    omega
  have hdup : strdup (joinSp tokens) = joinSp tokens := strdup_id _ (joinSp_no_NUL tokens hgood)
  have hloop := tokenLoop_joinSp tokens tokens.length [Slot.str progName]
    (List.replicate (tokens.length + 1) Slot.uninit) hgood (le_refl _) (by simp)
  have hrep : (List.replicate (tokens.length + 1 + 1) Slot.uninit).set 0 (Slot.str progName)
      = [Slot.str progName] ++ List.replicate (tokens.length + 1) Slot.uninit := by
    simp [List.replicate_succ]
  have hdrop : List.drop tokens.length (List.replicate (tokens.length + 1) Slot.uninit)
      = [Slot.uninit] := by
    simp
  have hset : ([Slot.str progName] ++ tokens.map Slot.str ++ [Slot.uninit]).set
      (tokens.length + 1) Slot.null = Slot.str progName :: tokens.map Slot.str ++ [Slot.null] := by
    have hl : tokens.length + 1 = ([Slot.str progName] ++ tokens.map Slot.str).length := by simp
    rw [hl, List.set_append_right _ _ (le_refl _)]
    simp
  constructor
  · rw [intercalate_eq_joinSp]
    simp only [ffmpeg_execute, hargc, hdup, hrep, Nat.add_sub_cancel]
    simp only [List.length_singleton] at hloop
    rw [hloop, hdrop, hset]
    simp
  · have hl : tokens.length + 1 = (Slot.str progName :: tokens.map Slot.str).length := by simp
    rw [hl, List.getElem?_append_right (le_refl _)]
    simp

/-- C4, the tokenizer scenario of the specification: the command `-i foo.mp4 -c:v copy out.mp4`
is made of five well-formed tokens and gives `argc = 6` and the six strings
`ffmpeg -i foo.mp4 -c:v copy out.mp4` followed by `NULL`. -/
theorem ffmpeg_execute_argv_witness :
    (scenarioTokens ≠ [] ∧ ∀ t ∈ scenarioTokens, GoodToken t) ∧
    ffmpeg_execute mainOk true (some scenarioCommand)
      = { status := 0,
          call := some (6, [Slot.str "ffmpeg".toList, Slot.str "-i".toList,
            Slot.str "foo.mp4".toList, Slot.str "-c:v".toList, Slot.str "copy".toList,
            Slot.str "out.mp4".toList, Slot.null]) } :=
  ⟨⟨by decide, by decide⟩,
    (ffmpeg_execute_argv mainOk scenarioTokens (by decide) (by decide)).1⟩

/-- C5: on a `NULL` command string `ffmpeg_execute` returns `-1` and `ffmpeg_main` is not
called with any `argv`, whatever `ffmpeg_main` and `malloc` would do. -/
theorem ffmpeg_execute_null (ffmpeg_main : Nat → List Slot → Int) (mallocOk : Bool) :
    ffmpeg_execute ffmpeg_main mallocOk none = { status := -1, call := none } := rfl

/-- C10 fails on the empty command and on a command with a leading space: the count gives
`argc = 2` (resp. `3`) while `strtok` yields no token (resp. one), so the last slot below
`argv[argc]` is still uninitialised when `argv` is printed, passed to `ffmpeg_main` and
freed. -/
theorem ffmpeg_execute_uninitialised_slot :
    countArgs [] 2 = 2 ∧ strtok (strdup []) = none ∧
    (ffmpeg_execute mainOk true (some [])).call
      = some (2, [Slot.str progName, Slot.uninit, Slot.null]) ∧
    (ffmpeg_execute mainOk true (some " a".toList)).call
      = some (3, [Slot.str progName, Slot.str "a".toList, Slot.uninit, Slot.null]) := by
  decide

/-! ## The properties of `helloworld_av_write` -/

/-- C1 fails on the code: with a library that has neither `libx264` nor an MPEG-4 encoder the
function prints that no video encoder was found and returns `0`, the stale result of the
successful container allocation; and when `avcodec_send_frame` fails on the first video frame
the loop is left by `break`, the rest of the pipeline runs and the function returns `0`. -/
theorem helloworld_av_write_zero_on_failure :
    (find_video_codec noVideoEncoderLib = false ∧
      (helloworld_av_write noVideoEncoderLib).ret = 0 ∧
      (helloworld_av_write noVideoEncoderLib).trace
        = [Event.acquire Res.oc, Event.release Res.oc]) ∧
    (sendFailLib.send_video 0 = -22 ∧
      Event.send_frame Enc.video (some 0) (-22) ∈ (helloworld_av_write sendFailLib).trace ∧
      (helloworld_av_write sendFailLib).ret = 0) := by
  decide!

/-- C2 fails on the code: when `avcodec_send_frame` answers `AVERROR(EINVAL)` for the first
video frame, the calls that follow the failed send still submit all 93 audio frames, send
the `NULL` frame to both encoders and write the trailer. -/
theorem send_error_not_fatal :
    Event.send_frame Enc.video (some 0) (-22) ∈ (helloworld_av_write sendFailLib).trace ∧
    (sentPts Enc.audio (((helloworld_av_write sendFailLib).trace).drop
      (((helloworld_av_write sendFailLib).trace).indexOf
        (Event.send_frame Enc.video (some 0) (-22)) + 1))).length = 93 ∧
    Event.send_frame Enc.video none 0 ∈ ((helloworld_av_write sendFailLib).trace).drop
      (((helloworld_av_write sendFailLib).trace).indexOf
        (Event.send_frame Enc.video (some 0) (-22)) + 1) ∧
    Event.send_frame Enc.audio none 0 ∈ ((helloworld_av_write sendFailLib).trace).drop
      (((helloworld_av_write sendFailLib).trace).indexOf
        (Event.send_frame Enc.video (some 0) (-22)) + 1) ∧
    Event.write_trailer ∈ ((helloworld_av_write sendFailLib).trace).drop
      (((helloworld_av_write sendFailLib).trace).indexOf
        (Event.send_frame Enc.video (some 0) (-22)) + 1) := by
  decide!

/-- C3 as stated fails: when `avformat_alloc_output_context2` fails, the function leaves
through the `return -1` of line 42 and the cleanup block is not the exit taken; this is a run
in which no unchecked allocation fails. -/
theorem alloc_failure_bypasses_cleanup :
    allocFailLib.alloc_output_context2 < 0 ∧
    ¬ ((helloworld_av_write allocFailLib).exit = ExitKind.cleanup) ∧
    (helloworld_av_write allocFailLib).exit = ExitKind.direct ∧
    (helloworld_av_write allocFailLib).ret = -1 ∧
    helloworld_av_write_unchecked allocOk allocFailLib
      = Outcome.finished (helloworld_av_write allocFailLib) :=
  ⟨by decide, by decide, by decide, by decide, unchecked_eq allocOk allocFailLib (by decide)⟩

/-- C3 amended: in every run in which the allocations the code does not check
(`avcodec_alloc_context3`, `av_frame_alloc`, `av_frame_get_buffer`) succeed, whatever the
checked steps and the encoders answer, the function returns; the cleanup block is the exit
taken exactly when the container allocation succeeded (on its failure the function returns
`-1` directly, with an empty record of calls); each resource is released as often as it was
acquired and at most once, and all releases come after all acquisitions. -/
theorem cleanup_releases_exactly_once (U : Unchecked) (L : Lib) (hU : U.allSucceed) :
    ∃ run, helloworld_av_write_unchecked U L = Outcome.finished run ∧
      (run.exit = ExitKind.cleanup ↔ 0 ≤ L.alloc_output_context2) ∧
      (run.exit = ExitKind.direct ↔
        (run.ret = -1 ∧ run.trace = [] ∧ L.alloc_output_context2 < 0)) ∧
      (∀ r : Res,
        run.trace.count (Event.acquire r) = run.trace.count (Event.release r) ∧
        run.trace.count (Event.release r) ≤ 1) ∧
      (∃ pre rel, run.trace = pre ++ rel ∧
        (∀ r, Event.release r ∉ pre) ∧ (∀ r, Event.acquire r ∉ rel)) :=
  ⟨helloworld_av_write L, unchecked_eq U L hU, release_accounting L⟩

/-- C3 amended, at a run in which every unchecked allocation succeeds and the header write
fails: the function leaves through the cleanup block with every resource released once. -/
theorem cleanup_releases_exactly_once_witness :
    allocOk.allSucceed ∧
    ∃ run, helloworld_av_write_unchecked allocOk headerFailLib = Outcome.finished run ∧
      (run.exit = ExitKind.cleanup ↔ 0 ≤ headerFailLib.alloc_output_context2) ∧
      (run.exit = ExitKind.direct ↔
        (run.ret = -1 ∧ run.trace = [] ∧ headerFailLib.alloc_output_context2 < 0)) ∧
      (∀ r : Res,
        run.trace.count (Event.acquire r) = run.trace.count (Event.release r) ∧
        run.trace.count (Event.release r) ≤ 1) ∧
      (∃ pre rel, run.trace = pre ++ rel ∧
        (∀ r, Event.release r ∉ pre) ∧ (∀ r, Event.acquire r ∉ rel)) :=
  ⟨by decide, cleanup_releases_exactly_once allocOk headerFailLib (by decide)⟩

/-- C6: in a run that reaches the encode loops, in which every video send succeeds and no
receive of the video loop returns a hard error, the frames submitted to the video encoder are
exactly `duration_seconds * fps = 60`, with the timestamps 0, 1, ..., 59 in this order. -/
theorem video_frames_submitted (L : Lib) (hsetup : SetupOk L)
    (hsend : ∀ n, n < 60 → 0 ≤ L.send_video n)
    (hrecv : ∀ n, n < 60 → ∀ r ∈ L.recv_video n, NoHardError L r) :
    sentPts Enc.video (helloworld_av_write L).trace = (List.range 60).map Int.ofNat ∧
    (sentPts Enc.video (helloworld_av_write L).trace).length = duration_seconds * fps := by
  have h := video_sends_of_ok L hsetup (fun n hn => ⟨hsend n hn, hrecv n hn⟩)
  have e : total_frames = 60 := rfl
  rw [e] at h
  refine ⟨h, ?_⟩
  rw [h]
  simp [duration_seconds, fps]

/-- C6 at `packetLib`, under which the set-up succeeds, every send succeeds and the receives
answer packets or `AVERROR(EAGAIN)`. -/
theorem video_frames_submitted_witness :
    SetupOk packetLib ∧
    sentPts Enc.video (helloworld_av_write packetLib).trace = (List.range 60).map Int.ofNat :=
  ⟨by decide, (video_frames_submitted packetLib (by decide) (by decide) (by decide)).1⟩

/-- C7: in a run that reaches the encode loops, in which no receive returns a hard error and
every audio send succeeds, the frames submitted to the audio encoder are exactly
`(duration_seconds * sample_rate) / audio_samples_per_frame = 93`, and the frame with index
`i` carries the timestamp `i * 1024`. -/
theorem audio_frames_submitted (L : Lib) (hsetup : SetupOk L)
    (hrecvV : ∀ n, n < 60 → ∀ r ∈ L.recv_video n, NoHardError L r)
    (hsend : ∀ i, i < 93 → 0 ≤ L.send_audio i)
    (hrecvA : ∀ i, i < 93 → ∀ r ∈ L.recv_audio i, NoHardError L r) :
    sentPts Enc.audio (helloworld_av_write L).trace
      = (List.range 93).map (fun i => (i : Int) * 1024) ∧
    (sentPts Enc.audio (helloworld_av_write L).trace).length
      = (duration_seconds * sample_rate) / audio_samples_per_frame ∧
    (∀ i : Nat, i < 93 →
      (sentPts Enc.audio (helloworld_av_write L).trace)[i]? = some ((i : Int) * 1024)) := by
  have h := audio_sends_of_ok L hsetup (fun n hn => hrecvV n hn)
    (fun i hi => ⟨hsend i hi, hrecvA i hi⟩)
  have e : total_audio_frames = 93 := by decide
  have e2 : (fun i : Nat => ((i * audio_samples_per_frame : Nat) : Int))
      = fun i : Nat => (i : Int) * 1024 := by
    funext i
    simp [audio_samples_per_frame]
  rw [e, e2] at h
  refine ⟨h, ?_, ?_⟩
  · rw [h]
    simp [duration_seconds, sample_rate, audio_samples_per_frame]
  · intro i hi
    rw [h, List.getElem?_map, List.getElem?_range hi]
    rfl

/-- C7 at `packetLib`. -/
theorem audio_frames_submitted_witness :
    SetupOk packetLib ∧
    sentPts Enc.audio (helloworld_av_write packetLib).trace
      = (List.range 93).map (fun i => (i : Int) * 1024) :=
  ⟨by decide,
    (audio_frames_submitted packetLib (by decide) (by decide) (by decide) (by decide)).1⟩

/-- C8: when the library's line sizes are at least the plane widths, every video frame
submitted in any run carries a timestamp `n` with `0 ≤ n < 60`, its luma byte at row `y`,
column `x` is `(x + y + n) mod 256` for `x < 320`, `y < 240`, and both chroma planes hold 128
at every `x < 160`, `y < 120`; the submitted frames are, in order, those of the video sends
on record; and two frames with the same timestamp, from the same or from two different runs,
agree on all these bytes. -/
theorem frame_content (L L' : Lib) (h0 : 320 ≤ L.frame0.linesize0)
    (h1 : 160 ≤ L.frame0.linesize1) (h2 : 160 ≤ L.frame0.linesize2)
    (h0' : 320 ≤ L'.frame0.linesize0) (h1' : 160 ≤ L'.frame0.linesize1)
    (h2' : 160 ≤ L'.frame0.linesize2) :
    (∀ f ∈ (helloworld_av_write L).sent, ∃ n : Nat, n < 60 ∧ f.pts = (n : Int) ∧
      (∀ x y, x < 320 → y < 240 → f.data0 (y * f.linesize0 + x) = (x + y + n) % 256) ∧
      (∀ x y, x < 160 → y < 120 →
        f.data1 (y * f.linesize1 + x) = 128 ∧ f.data2 (y * f.linesize2 + x) = 128)) ∧
    (helloworld_av_write L).sent.map VideoFrame.pts
      = sentPts Enc.video (helloworld_av_write L).trace ∧
    (∀ f ∈ (helloworld_av_write L).sent, ∀ f' ∈ (helloworld_av_write L').sent,
      f.pts = f'.pts →
      (∀ x y, x < 320 → y < 240 →
        f.data0 (y * f.linesize0 + x) = f'.data0 (y * f'.linesize0 + x)) ∧
      (∀ x y, x < 160 → y < 120 →
        f.data1 (y * f.linesize1 + x) = f'.data1 (y * f'.linesize1 + x) ∧
        f.data2 (y * f.linesize2 + x) = f'.data2 (y * f'.linesize2 + x))) := by
  obtain ⟨a1, a2⟩ := sent_frames_ok L h0 h1 h2
  obtain ⟨b1, _⟩ := sent_frames_ok L' h0' h1' h2'
  refine ⟨a1, a2, ?_⟩
  intro f hf f' hf' hpts
  obtain ⟨n, _, hn, hl, hc⟩ := a1 f hf
  obtain ⟨n', _, hn', hl', hc'⟩ := b1 f' hf'
  have e : n = n' := by
    rw [hn, hn'] at hpts
    exact_mod_cast hpts
  subst e
  refine ⟨fun x y hx hy => ?_, fun x y hx hy => ?_⟩
  · rw [hl x y hx hy, hl' x y hx hy]
  · rw [(hc x y hx hy).1, (hc x y hx hy).2, (hc' x y hx hy).1, (hc' x y hx hy).2]
    exact ⟨rfl, rfl⟩

/-- C8 at `paddedLib` (lines of 384 and 192 bytes), for the frames of one run. -/
theorem frame_content_witness :
    (320 ≤ paddedLib.frame0.linesize0 ∧ 160 ≤ paddedLib.frame0.linesize1 ∧
      160 ≤ paddedLib.frame0.linesize2) ∧
    (∀ f ∈ (helloworld_av_write paddedLib).sent, ∃ n : Nat, n < 60 ∧ f.pts = (n : Int) ∧
      (∀ x y, x < 320 → y < 240 → f.data0 (y * f.linesize0 + x) = (x + y + n) % 256) ∧
      (∀ x y, x < 160 → y < 120 →
        f.data1 (y * f.linesize1 + x) = 128 ∧ f.data2 (y * f.linesize2 + x) = 128)) :=
  ⟨⟨by decide, by decide, by decide⟩,
    (frame_content paddedLib paddedLib (by decide) (by decide) (by decide) (by decide)
      (by decide) (by decide)).1⟩

/-- C9: in every run, each frame submitted to an encoder (the `NULL` frames included) comes
after a header write that succeeded; and wherever the trailer write stands on record, the
calls before it end with the `NULL` frame sent to the video encoder, its drain down to a
negative receive, the `NULL` frame sent to the audio encoder and its drain down to a negative
receive. -/
theorem header_first_trailer_last (L : Lib) :
    (∀ pre ev post, (helloworld_av_write L).trace = pre ++ ev :: post → Event.isSend ev = true →
      ∃ h, 0 ≤ h ∧ Event.write_header h ∈ pre) ∧
    (∀ pre post, (helloworld_av_write L).trace = pre ++ Event.write_trailer :: post →
      ∃ p rv dv ra da,
        pre = p ++ Event.send_frame Enc.video none rv :: dv ++
          Event.send_frame Enc.audio none ra :: da ∧
        Drained Enc.video dv ∧ Drained Enc.audio da) := by
  have hsetup : ∀ s0, SetupInv L s0 → ∀ ev ∈ s0.trace,
      Event.isSend ev = false ∧ ev ≠ Event.write_trailer := by
    intro s0 hinv ev hev
    have := hinv.quiet ev hev
    cases ev <;> simp_all [Event.isSetup, Event.isSend]
  have hrel : ∀ s, ∀ ev ∈ releases L s, Event.isSend ev = false ∧ ev ≠ Event.write_trailer := by
    intro s ev hev
    obtain ⟨r, hr⟩ := releases_isRes L s ev hev
    simp [hr, Event.isSend]
  have hloop : ∀ ev, (Event.isLoop Enc.video ev || Event.isLoop Enc.audio ev) = true →
      ev ≠ Event.write_trailer := by
    intro ev h he
    simp [he, Event.isLoop] at h
  have hdrain : ∀ e ev, Event.isDrain e ev = true → ev ≠ Event.write_trailer := by
    intro e ev h he
    simp [he, Event.isDrain] at h
  constructor
  · intro pre ev post htr hsend
    rcases run_shape L with h0 | ⟨s0, hinv, h1⟩ | ⟨s0, s, pre0, h, d, hinv, hh, hs0, _, hcase⟩
    · rw [h0] at htr
      exact absurd htr (by simp)
    · have hmem : ev ∈ s0.trace ++ releases L s0 := by rw [← h1, htr]; simp
      rcases List.mem_append.mp hmem with hm | hm
      · rw [(hsetup s0 hinv ev hm).1] at hsend; cases hsend
      · rw [(hrel s0 ev hm).1] at hsend; cases hsend
    · have hnot : ev ∉ s0.trace := by
        intro hm
        rw [(hsetup s0 hinv ev hm).1] at hsend
        cases hsend
      have hpre : ∃ m, pre = s0.trace ++ m := by
        rcases hcase with h1 | ⟨dv, da, _, _, h1⟩
        · rw [h1, List.append_assoc] at htr
          exact prefix_of_not_mem _ _ _ _ _ htr hnot
        · rw [h1, List.append_assoc, List.append_assoc] at htr
          exact prefix_of_not_mem _ _ _ _ _ htr hnot
      obtain ⟨m, hm⟩ := hpre
      exact ⟨h, hh, by rw [hm, hs0]; simp⟩
  · intro pre post htr
    have hmemT : Event.write_trailer ∈ (helloworld_av_write L).trace := by rw [htr]; simp
    rcases run_shape L with h0 | ⟨s0, hinv, h1⟩ | ⟨s0, s, pre0, h, d, hinv, hh, hs0, hd, hcase⟩
    · rw [h0] at hmemT
      exact absurd hmemT (by simp)
    · rw [h1] at hmemT
      rcases List.mem_append.mp hmemT with hm | hm
      · exact absurd rfl (hsetup s0 hinv _ hm).2
      · exact absurd rfl (hrel s0 _ hm).2
    · rcases hcase with h1 | ⟨dv, da, hdv, hda, h1⟩
      · rw [h1] at hmemT
        rcases List.mem_append.mp hmemT with hm | hm
        · rcases List.mem_append.mp hm with hm | hm
          · exact absurd rfl (hsetup s0 hinv _ hm).2
          · exact absurd rfl (hloop _ (hd _ hm))
        · exact absurd rfl (hrel s _ hm).2
      · have hshape : (helloworld_av_write L).trace
            = ((s0.trace ++ d) ++ Event.send_frame Enc.video none L.send_flush_video :: dv ++
                Event.send_frame Enc.audio none L.send_flush_audio :: da) ++
              Event.write_trailer :: releases L s := by
          rw [h1]; simp
        rw [hshape] at htr
        have hpre := eq_of_unique_mem _ _ _ _ _ htr (by
          intro hm
          simp only [List.mem_append, List.mem_cons] at hm
          rcases hm with ((hm | hm) | hm | hm) | hm | hm
          · exact absurd rfl (hsetup s0 hinv _ hm).2
          · exact absurd rfl (hloop _ (hd _ hm))
          · cases hm
          · exact absurd rfl (hdrain _ _ (hdv.isDrain _ hm))
          · cases hm
          · exact absurd rfl (hdrain _ _ (hda.isDrain _ hm))) (fun hm => absurd rfl (hrel s _ hm).2)
        exact ⟨s0.trace ++ d, L.send_flush_video, dv, L.send_flush_audio, da, hpre, hdv, hda⟩

end Pulse
